import Mathlib

/-!
Verification of the innovation-evaluator core of the urban-e-bike repository.

The embedded code is `server/evaluator.js` (function `evaluateInnovation` and
the constant `EVALUATION_PROMPT`) and the POST /api/evaluate handler of
`server/index.js`.  Strings are modelled as `List Char`.  The two JavaScript
regular expressions used for JSON extraction are embedded as abstract-syntax
values of a small regex language together with a backtracking matcher that
mirrors ECMAScript semantics for this fragment (leftmost match position,
greedy `*` and `?` with backtracking, one capture group).  `JSON.parse` and
`JSON.stringify` are modelled by an executable parser and printer for the
JSON grammar (numbers are decimal pairs mantissa/10^exponent; surrogate-pair
`\uXXXX` escapes are not combined, a divergence that no claim touches).
-/

set_option maxRecDepth 40000

/-! ## Basic utilities -/

/-- Left-biased choice on `Option`, the backtracking combinator. -/
def oor {α : Type} (a b : Option α) : Option α :=
  match a with
  | some v => some v
  | none => b

/-- Whitespace class of the ECMAScript regex escape `\s`. -/
def jsWs (c : Char) : Bool :=
  c = ' ' || c = '\t' || c = '\n' || c = '\r' || c = '\x0b' || c = '\x0c' ||
  c.toNat = 0xa0 || c.toNat = 0x1680 ||
  (0x2000 ≤ c.toNat && c.toNat ≤ 0x200a) ||
  c.toNat = 0x2028 || c.toNat = 0x2029 || c.toNat = 0x202f ||
  c.toNat = 0x205f || c.toNat = 0x3000 || c.toNat = 0xfeff

/-- Whitespace set accepted by the ECMAScript `String.prototype.trim`. -/
def jsTrimWs (c : Char) : Bool := jsWs c

/-- Decide whether `p` is a prefix of `s`. -/
def startsWithL : List Char → List Char → Bool
  | _, [] => true
  | [], _ :: _ => false
  | c :: t, p :: pt => c = p && startsWithL t pt

/-- Decide whether `pat` occurs as a contiguous substring of `s`. -/
def containsSub : List Char → List Char → Bool
  | s, pat =>
    match s with
    | [] => startsWithL [] pat
    | _ :: t => startsWithL s pat || containsSub t pat

/-- Count (possibly overlapping) occurrences of `pat` in `s`. -/
def countOcc : List Char → List Char → Nat
  | [], _ => 0
  | c :: t, pat => (if startsWithL (c :: t) pat then 1 else 0) + countOcc t pat

/-! ## Regex abstract syntax and backtracking matcher

The fragment needed by the two regex literals of `evaluateInnovation`:
character literals, single-character classes under `*` (both `\s*` and
`[\s\S]*` are of this shape), concatenation, alternation (for the greedy
`(?:json)?`), and the marks of the single capture group. -/

inductive RE where
  | eps : RE
  | lit : Char → RE
  | star : (Char → Bool) → RE
  | seq : RE → RE → RE
  | alt : RE → RE → RE
  | gopen : RE
  | gclose : RE

/-- Matcher state: remaining input and the capture-group marks (the remaining
input recorded when the group opened and when it closed). -/
structure MState where
  rem : List Char
  gs : Option (List Char)
  ge : Option (List Char)

/-- Greedy Kleene star over a single-character class, in continuation-passing
style: consume as much as possible first, backtracking one character at a
time. -/
def starM {α : Type} (p : Char → Bool) (gs ge : Option (List Char))
    (k : MState → Option α) : List Char → Option α
  | [] => k ⟨[], gs, ge⟩
  | c :: t =>
    if p c then oor (starM p gs ge k t) (k ⟨c :: t, gs, ge⟩)
    else k ⟨c :: t, gs, ge⟩

/-- Backtracking matcher in continuation-passing style.  `mRE r st k` tries
to match `r` at the beginning of `st.rem` and calls `k` on every candidate
ending state, in backtracking priority order, returning the first success. -/
def mRE {α : Type} : RE → MState → (MState → Option α) → Option α
  | .eps, st, k => k st
  | .lit c, st, k =>
    match st.rem with
    | [] => none
    | x :: t => if x = c then k ⟨t, st.gs, st.ge⟩ else none
  | .star p, st, k => starM p st.gs st.ge k st.rem
  | .seq a b, st, k => mRE a st (fun st1 => mRE b st1 k)
  | .alt a b, st, k => oor (mRE a st k) (mRE b st k)
  | .gopen, st, k => k ⟨st.rem, some st.rem, st.ge⟩
  | .gclose, st, k => k ⟨st.rem, st.gs, some st.rem⟩

/-- Captured text of a final state: the span between the two marks. -/
def capOf (st : MState) : Option (List Char) :=
  match st.gs, st.ge with
  | some a, some b => some (a.take (a.length - b.length))
  | _, _ => none

/-- Try the regex anchored at the start of `s`; on success return the whole
matched text (component `[0]` of a JavaScript match result) and the capture
(component `[1]`). -/
def matchAt (r : RE) (s : List Char) : Option (List Char × Option (List Char)) :=
  mRE r ⟨s, none, none⟩
    (fun st => some (s.take (s.length - st.rem.length), capOf st))

/-- Semantics of `String.prototype.match` with a non-global regex: try every
start position from the left, returning the first successful match. -/
def jsMatch (r : RE) : List Char → Option (List Char × Option (List Char))
  | [] => matchAt r []
  | c :: t =>
    match matchAt r (c :: t) with
    | some m => some m
    | none => jsMatch r t

/-- Concatenation of character literals. -/
def litStr (s : List Char) : RE := s.foldr (fun c r => .seq (.lit c) r) .eps

/-- Three backtick characters, the fence delimiter. -/
def ticks3 : RE := litStr "```".toList

/-- Closing part of the fenced regex: `\})\s*` and the closing fence. -/
def fencedRest2 : RE :=
  .seq (.lit '\x7d') (.seq .gclose (.seq (.star jsWs) ticks3))

/-- Group part of the fenced regex: the capture open, `\{`, the greedy
any-character star, and the closing part. -/
def fencedRest1 : RE :=
  .seq .gopen (.seq (.lit '\x7b') (.seq (.star (fun _ => true)) fencedRest2))

/-- Tail of the fenced regex after the optional tag:
`\s*(\{[\s\S]*\})\s*` followed by the closing fence. -/
def fencedTail : RE := .seq (.star jsWs) fencedRest1

/-- Embedding of the first extraction regex of `evaluateInnovation`
(`server/evaluator.js` line 203): three backticks, an optional `json` tag,
optional whitespace, a capture group `\{[\s\S]*\}`, optional whitespace and
the closing fence. -/
def fencedRE : RE :=
  .seq ticks3 (.seq (.alt (litStr "json".toList) .eps) fencedTail)

/-- Embedding of the second extraction regex of `evaluateInnovation`
(`server/evaluator.js` line 209): `\{[\s\S]*\}`. -/
def objRE : RE :=
  .seq (.lit '\x7b') (.seq (.star (fun _ => true)) (.lit '\x7d'))

/-- JSON-extraction step of `evaluateInnovation`
(`server/evaluator.js` lines 202-213): try the fenced regex and take its
capture group; otherwise try the brace-to-brace regex and take the whole
match; otherwise keep the full completion text. -/
def extractJsonContent (content : List Char) : List Char :=
  match jsMatch fencedRE content with
  | some (_, some cap) => cap
  | some (_, none) => content
  | none =>
    match jsMatch objRE content with
    | some (w, _) => w
    | none => content

/-! ## JSON values, `JSON.parse` and `JSON.stringify` -/

/-- JSON values.  Numbers are represented exactly as decimal pairs: `num m e`
denotes the number `m / 10 ^ e`, which is how a decimal numeral round-trips
through printing and parsing.  Object members keep insertion order, as
JavaScript objects do. -/
inductive Json where
  | null : Json
  | bool : Bool → Json
  | num : Int → Nat → Json
  | str : List Char → Json
  | arr : List Json → Json
  | obj : List (List Char × Json) → Json

/-- Whitespace of the JSON grammar (RFC 8259), as skipped by `JSON.parse`. -/
def jsonWs (c : Char) : Bool := c = ' ' || c = '\t' || c = '\n' || c = '\r'

/-- Drop leading JSON whitespace. -/
def skipWs : List Char → List Char
  | [] => []
  | c :: t => if jsonWs c then skipWs t else c :: t

/-- Numeric value of a decimal digit character. -/
def digVal (c : Char) : Nat := c.toNat - 48

/-- Decimal digit character for a value below ten. -/
def digitChar (n : Nat) : Char := Char.ofNat (48 + n)

/-- Lower-case hexadecimal digit character for a value below sixteen. -/
def hexDigitChar (n : Nat) : Char :=
  if n < 10 then Char.ofNat (48 + n) else Char.ofNat (87 + n)

/-- Hexadecimal digit predicate. -/
def isHexDig (c : Char) : Bool :=
  c.isDigit || ('a' ≤ c && c ≤ 'f') || ('A' ≤ c && c ≤ 'F')

/-- Numeric value of a hexadecimal digit character. -/
def hexVal (c : Char) : Nat :=
  if c.isDigit then c.toNat - 48
  else if 'a' ≤ c && c ≤ 'f' then c.toNat - 87
  else c.toNat - 55

/-- Value of a big-endian list of decimal digit characters. -/
def digitsVal (l : List Char) : Nat := l.foldl (fun a c => a * 10 + digVal c) 0

/-- Body of a JSON string after the opening quote: unescape until the closing
quote, rejecting raw control characters.  Surrogate-pair `\uXXXX` escapes are
not combined; escapes denoting surrogate code units are rejected (a modelling
divergence from `JSON.parse` that no claim depends on). -/
def parseStringBody : List Char → Option (List Char × List Char)
  | [] => none
  | c :: t =>
    if c = '"' then some ([], t)
    else if c = '\\' then
      match t with
      | [] => none
      | e :: r =>
        if e = '"' then (parseStringBody r).map (fun p => ('"' :: p.1, p.2))
        else if e = '\\' then (parseStringBody r).map (fun p => ('\\' :: p.1, p.2))
        else if e = '/' then (parseStringBody r).map (fun p => ('/' :: p.1, p.2))
        else if e = 'b' then (parseStringBody r).map (fun p => ('\x08' :: p.1, p.2))
        else if e = 'f' then (parseStringBody r).map (fun p => ('\x0c' :: p.1, p.2))
        else if e = 'n' then (parseStringBody r).map (fun p => ('\n' :: p.1, p.2))
        else if e = 'r' then (parseStringBody r).map (fun p => ('\r' :: p.1, p.2))
        else if e = 't' then (parseStringBody r).map (fun p => ('\t' :: p.1, p.2))
        else if e = 'u' then
          match r with
          | a :: b :: c2 :: d :: r2 =>
            if isHexDig a && isHexDig b && isHexDig c2 && isHexDig d then
              let n := ((hexVal a * 16 + hexVal b) * 16 + hexVal c2) * 16 + hexVal d
              if n < 0xd800 || 0xdfff < n then
                (parseStringBody r2).map (fun p => (Char.ofNat n :: p.1, p.2))
              else none
            else none
          | _ => none
        else none
    else if c.toNat < 32 then none
    else (parseStringBody t).map (fun p => (c :: p.1, p.2))

/-- Exponent part of a JSON number; folds the decimal exponent into the
mantissa/exponent pair. -/
def numExp (neg : Bool) (m0 e0 : Nat) (s : List Char) : Option (Json × List Char) :=
  let se : Bool × List Char :=
    match s with
    | [] => (false, [])
    | c :: r => if c = '+' then (false, r) else if c = '-' then (true, r) else (false, c :: r)
  let eds := se.2.takeWhile Char.isDigit
  if eds.isEmpty then none
  else
    let ev := digitsVal eds
    let rest := se.2.dropWhile Char.isDigit
    let me : Nat × Nat :=
      if se.1 then (m0, e0 + ev)
      else if ev ≤ e0 then (m0, e0 - ev)
      else (m0 * 10 ^ (ev - e0), 0)
    some (.num (if neg then -(me.1 : Int) else (me.1 : Int)) me.2, rest)

/-- Continuation of number parsing after the integer and fraction parts. -/
def numAfterFrac (neg : Bool) (iv : Nat) (fds : List Char) (s : List Char) :
    Option (Json × List Char) :=
  let m0 : Nat := iv * 10 ^ fds.length + digitsVal fds
  let e0 : Nat := fds.length
  match s with
  | [] => some (.num (if neg then -(m0 : Int) else (m0 : Int)) e0, [])
  | c :: r =>
    if c = 'e' || c = 'E' then numExp neg m0 e0 r
    else some (.num (if neg then -(m0 : Int) else (m0 : Int)) e0, c :: r)

/-- Continuation of number parsing after the integer part. -/
def numAfterInt (neg : Bool) (iv : Nat) (s : List Char) : Option (Json × List Char) :=
  match s with
  | [] => numAfterFrac neg iv [] []
  | c :: r =>
    if c = '.' then
      let fds := r.takeWhile Char.isDigit
      if fds.isEmpty then none
      else numAfterFrac neg iv fds (r.dropWhile Char.isDigit)
    else numAfterFrac neg iv [] (c :: r)

/-- Unsigned part of the JSON number grammar (after the optional minus):
`0` or a nonzero-led digit string, optional fraction, optional exponent. -/
def pnBody (neg : Bool) : List Char → Option (Json × List Char)
  | [] => none
  | c :: r =>
    if c = '0' then
      match r with
      | d :: _ => if d.isDigit then none else numAfterInt neg 0 r
      | [] => numAfterInt neg 0 []
    else if c.isDigit then
      numAfterInt neg (digitsVal ((c :: r).takeWhile Char.isDigit))
        ((c :: r).dropWhile Char.isDigit)
    else none

/-- JSON number grammar: optional minus, `0` or a nonzero-led digit string,
optional fraction, optional exponent. -/
def parseNumber (s : List Char) : Option (Json × List Char) :=
  match s with
  | [] => none
  | c :: r => if c = '-' then pnBody true r else pnBody false (c :: r)

/-- Property assignment on a JavaScript object literal under construction:
an existing key keeps its position and gets the new value, a fresh key is
appended. -/
def insertMember : List (List Char × Json) → List Char → Json →
    List (List Char × Json)
  | [], k, v => [(k, v)]
  | (k', v') :: t, k, v =>
    if k' = k then (k', v) :: t else (k', v') :: insertMember t k v

mutual

/-- Fueled JSON value parser; the fuel only bounds recursion depth and
`2 * length + 2` is always enough (each unit of fuel is matched by at most
two recursion steps per consumed character). -/
def parseValueF : Nat → List Char → Option (Json × List Char)
  | 0, _ => none
  | Nat.succ f, s =>
    match skipWs s with
    | [] => none
    | c :: r =>
      if c = '\x7b' then
        match skipWs r with
        | '\x7d' :: r2 => some (.obj [], r2)
        | r2 => parseMembers f [] r2
      else if c = '[' then
        match skipWs r with
        | ']' :: r2 => some (.arr [], r2)
        | r2 => parseElems f [] r2
      else if c = '"' then (parseStringBody r).map (fun p => (.str p.1, p.2))
      else if c = 't' then
        if startsWithL r "rue".toList then some (.bool true, r.drop 3) else none
      else if c = 'f' then
        if startsWithL r "alse".toList then some (.bool false, r.drop 4) else none
      else if c = 'n' then
        if startsWithL r "ull".toList then some (.null, r.drop 3) else none
      else if c = '-' || c.isDigit then parseNumber (c :: r)
      else none

/-- Member list of a JSON object after the opening brace (nonempty case). -/
def parseMembers : Nat → List (List Char × Json) → List Char →
    Option (Json × List Char)
  | 0, _, _ => none
  | Nat.succ f, acc, s =>
    match skipWs s with
    | '"' :: r =>
      match parseStringBody r with
      | none => none
      | some (key, r1) =>
        match skipWs r1 with
        | ':' :: r2 =>
          match parseValueF f r2 with
          | none => none
          | some (v, r3) =>
            match skipWs r3 with
            | ',' :: r4 => parseMembers f (insertMember acc key v) r4
            | '\x7d' :: r4 => some (.obj (insertMember acc key v), r4)
            | _ => none
        | _ => none
    | _ => none

/-- Element list of a JSON array after the opening bracket (nonempty case). -/
def parseElems : Nat → List Json → List Char → Option (Json × List Char)
  | 0, _, _ => none
  | Nat.succ f, acc, s =>
    match parseValueF f s with
    | none => none
    | some (v, r1) =>
      match skipWs r1 with
      | ',' :: r2 => parseElems f (acc ++ [v]) r2
      | ']' :: r2 => some (.arr (acc ++ [v]), r2)
      | _ => none

end

/-- Model of `JSON.parse`: parse one value and require only whitespace
afterwards. -/
def jsonParse (s : List Char) : Option Json :=
  match parseValueF (2 * s.length + 2) s with
  | some (v, r) =>
    match skipWs r with
    | [] => some v
    | _ => none
  | none => none

/-- Big-endian decimal digit characters of a natural number (fueled; the
fuel `n + 1` always suffices). -/
def natDigitsAux : Nat → Nat → List Char
  | 0, _ => []
  | Nat.succ f, n =>
    if n < 10 then [digitChar n] else natDigitsAux f (n / 10) ++ [digitChar (n % 10)]

/-- Decimal digit characters of a natural number. -/
def natDigits (n : Nat) : List Char := natDigitsAux (n + 1) n

/-- Decimal numeral of the exact number `m / 10 ^ e`: the digits of `m` with
a decimal point inserted `e` places from the right (left-padding with zeros
when `m` has at most `e` digits). -/
def numToChars (m : Int) (e : Nat) : List Char :=
  let ds := natDigits m.natAbs
  let L := max ds.length (e + 1)
  let padded := List.replicate (L - ds.length) '0' ++ ds
  let ip := padded.take (L - e)
  let fp := padded.drop (L - e)
  (if m < 0 then ['-'] else []) ++ (if e = 0 then ip else ip ++ '.' :: fp)

/-- Escape one character the way `JSON.stringify` quotes string contents. -/
def escapeChar (c : Char) : List Char :=
  if c = '"' then ['\\', '"']
  else if c = '\\' then ['\\', '\\']
  else if c = '\x08' then ['\\', 'b']
  else if c = '\x0c' then ['\\', 'f']
  else if c = '\n' then ['\\', 'n']
  else if c = '\r' then ['\\', 'r']
  else if c = '\t' then ['\\', 't']
  else if c.toNat < 32 then
    ['\\', 'u', '0', '0', hexDigitChar (c.toNat / 16), hexDigitChar (c.toNat % 16)]
  else [c]

/-- Escape a whole string body. -/
def escapeStr : List Char → List Char
  | [] => []
  | c :: t => escapeChar c ++ escapeStr t

mutual

/-- Model of `JSON.stringify` without indentation. -/
def stringifyJson : Json → List Char
  | .null => "null".toList
  | .bool true => "true".toList
  | .bool false => "false".toList
  | .num m e => numToChars m e
  | .str s => '"' :: escapeStr s ++ ['"']
  | .arr l => '[' :: stringifyElems l ++ [']']
  | .obj l => '\x7b' :: stringifyMembers l ++ ['\x7d']

/-- Comma-separated array elements. -/
def stringifyElems : List Json → List Char
  | [] => []
  | [j] => stringifyJson j
  | j :: j2 :: js => stringifyJson j ++ ',' :: stringifyElems (j2 :: js)

/-- Comma-separated object members. -/
def stringifyMembers : List (List Char × Json) → List Char
  | [] => []
  | [(k, v)] => '"' :: escapeStr k ++ '"' :: ':' :: stringifyJson v
  | (k, v) :: m2 :: ms =>
    ('"' :: escapeStr k ++ '"' :: ':' :: stringifyJson v) ++ ',' :: stringifyMembers (m2 :: ms)

end

/-- Key absent from a member list. -/
def keyFree (k : List Char) : List (List Char × Json) → Bool
  | [] => true
  | (k', _) :: t => if k' = k then false else keyFree k t

mutual

/-- Every object inside the value has pairwise distinct keys (JavaScript
objects cannot carry duplicate keys). -/
def noDupKeysJ : Json → Bool
  | .null => true
  | .bool _ => true
  | .num _ _ => true
  | .str _ => true
  | .arr l => noDupKeysA l
  | .obj l => noDupKeysM l

/-- List version of `noDupKeysJ`. -/
def noDupKeysA : List Json → Bool
  | [] => true
  | j :: js => noDupKeysJ j && noDupKeysA js

/-- Member-list version of `noDupKeysJ`. -/
def noDupKeysM : List (List Char × Json) → Bool
  | [] => true
  | (k, v) :: t => keyFree k t && noDupKeysJ v && noDupKeysM t

end


/-! ## Shape of a valid EvaluationResult (spec section 3) -/

/-- String-valued JSON value. -/
def isStrJ : Json → Bool
  | .str _ => true
  | _ => false

/-- Numeric JSON value. -/
def isNumJ : Json → Bool
  | .num _ _ => true
  | _ => false

/-- Dimension score: a number between 1 and 10. -/
def isScore : Json → Bool
  | .num m e => (10 ^ e : Int) ≤ m && m ≤ 10 * 10 ^ e
  | _ => false

/-- Array of strings. -/
def isStrArr : Json → Bool
  | .arr l => l.all isStrJ
  | _ => false

/-- One of the three recommendation labels. -/
def isRecommendation : Json → Bool
  | .str s => s == "Strong".toList || s == "Moderate".toList || s == "Weak".toList
  | _ => false

/-- Shape of the competitors record. -/
def isCompetitors : Json → Bool
  | .obj [(k1, v1), (k2, v2)] =>
    k1 == "existingSolutions".toList && isStrJ v1 &&
    k2 == "differentiation".toList && isStrJ v2
  | _ => false

/-- Shape of the bmwAlignment record. -/
def isBmwAlignment : Json → Bool
  | .obj [(k1, v1), (k2, v2), (k3, v3)] =>
    k1 == "strategyFit".toList && isStrJ v1 &&
    k2 == "brandFit".toList && isStrJ v2 &&
    k3 == "corporateValues".toList && isStrJ v3
  | _ => false

/-- Shape of the desirability record. -/
def isDesirability : Json → Bool
  | .obj [(k1, v1), (k2, v2), (k3, v3), (k4, v4)] =>
    k1 == "score".toList && isScore v1 &&
    k2 == "justification".toList && isStrJ v2 &&
    k3 == "marketNeed".toList && isStrJ v3 &&
    k4 == "customerAppeal".toList && isStrJ v4
  | _ => false

/-- Shape of the feasibility record. -/
def isFeasibility : Json → Bool
  | .obj [(k1, v1), (k2, v2), (k3, v3), (k4, v4), (k5, v5)] =>
    k1 == "score".toList && isScore v1 &&
    k2 == "justification".toList && isStrJ v2 &&
    k3 == "technicalComplexity".toList && isStrJ v3 &&
    k4 == "resourceRequirements".toList && isStrJ v4 &&
    k5 == "regulatoryChallenges".toList && isStrJ v5
  | _ => false

/-- Shape of the viability record. -/
def isViability : Json → Bool
  | .obj [(k1, v1), (k2, v2), (k3, v3), (k4, v4), (k5, v5)] =>
    k1 == "score".toList && isScore v1 &&
    k2 == "justification".toList && isStrJ v2 &&
    k3 == "marketPotential".toList && isStrJ v3 &&
    k4 == "costStructure".toList && isStrJ v4 &&
    k5 == "competitivePositioning".toList && isStrJ v5
  | _ => false

/-- Shape of the overallEvaluation record (the overall score is any number,
not cross-checked against the mean, per spec section 3). -/
def isOverall : Json → Bool
  | .obj [(k1, v1), (k2, v2), (k3, v3), (k4, v4), (k5, v5)] =>
    k1 == "overallScore".toList && isNumJ v1 &&
    k2 == "strengths".toList && isStrArr v2 &&
    k3 == "weaknesses".toList && isStrArr v3 &&
    k4 == "risks".toList && isStrArr v4 &&
    k5 == "recommendation".toList && isRecommendation v5
  | _ => false

/-- Shape of a valid EvaluationResult: the seven top-level fields of the
data model, in the order of the template. -/
def isEvalResult : Json → Bool
  | .obj [(k1, v1), (k2, v2), (k3, v3), (k4, v4), (k5, v5), (k6, v6), (k7, v7)] =>
    k1 == "competitors".toList && isCompetitors v1 &&
    k2 == "bmwAlignment".toList && isBmwAlignment v2 &&
    k3 == "desirability".toList && isDesirability v3 &&
    k4 == "feasibility".toList && isFeasibility v4 &&
    k5 == "viability".toList && isViability v5 &&
    k6 == "overallEvaluation".toList && isOverall v6 &&
    k7 == "improvements".toList && isStrArr v7
  | _ => false

/-! ## Prompt Builder (template, placeholder substitution, messages) -/

/-- Opening part of the evaluation template (before the placeholder),
in newline-bounded pieces. -/
def promptPreP1 : String :=
  "You are an innovation evaluation expert at BMW. Analyze the following innovation concept CRITICALLY and provide a comprehensive evaluation with ACCURATE SCORES based on the actual quality of the concept.\n\nIMPORTANT SCORING GUIDELINES:\n- Scores must reflect the ACTUAL quality of THIS specific concept, not template values\n- Poor concepts (unrealistic, vague, no market need) should score 1-4"

def promptPreP2 : String :=
  "\n- Mediocre concepts should score 5-6\n- Good concepts should score 7-8\n- Excellent concepts should score 9-10\n- DO NOT use example scores - calculate real scores for THIS concept\n- Be CRITICAL - most ideas have significant flaws\n\nINNOVATION CONCEPT:\n"

/-- Part of the template literal before the placeholder. -/
def promptPre : String := promptPreP1 ++ promptPreP2

/-- Closing part of the evaluation template (after the placeholder),
in newline-bounded pieces. -/
def promptPostP1 : String :=
  "\n\nEvaluate this concept across the following dimensions:\n\n1. **Competitors & Similar Projects**: Identify existing competitors, similar solutions, or comparable products. How does this differ?\n\n2. **BMW Strategy Alignment**: Evaluate alignment with BMW\x27s strategy, brand positioning, and corporate values (premium quality, innovation, sustainability, mobility solutions).\n"

def promptPostP2 : String :=
  "\n3. **Desirability** (Score 1-10):\n   - Market need and customer demand\n   - Target customer segments and their actual needs\n   - Market trends and timing\n   - User experience and value proposition clarity\n   - CRITICALLY assess: Is there real demand? Is the value clear?\n   - Low scores (1-4) for: Unclear value, no market need, vague target customers"

def promptPostP3 : String :=
  "\n   - High scores (8-10) for: Clear need, strong demand, well-defined customers\n\n4. **Feasibility** (Score 1-10):\n   - Technical complexity and whether the technology exists/is proven\n   - Resource requirements (R&D, manufacturing, expertise)\n   - Regulatory and compliance challenges\n   - Realistic time to market\n   - CRITICALLY assess: Is this technically possible? Are resources realistic?"

def promptPostP4 : String :=
  "\n   - Low scores (1-4) for: Impossible tech, unrealistic resources, no clear path\n   - High scores (8-10) for: Proven tech, clear resources, feasible timeline\n\n5. **Viability** (Score 1-10):\n   - Market size and realistic revenue potential\n   - Cost structure and profitability potential\n   - Competitive positioning and differentiation\n   - Business model sustainability"

def promptPostP5 : String :=
  "\n   - CRITICALLY assess: Can this make money? Is the business model sound?\n   - Low scores (1-4) for: No clear revenue, poor business model, unrealistic costs\n   - High scores (8-10) for: Clear revenue path, sound model, realistic costs\n\n6. **Overall Evaluation**:\n   - Calculate overallScore as the average of desirability, feasibility, and viability scores"

def promptPostP6 : String :=
  "\n   - Identify specific strengths (be honest - weak concepts may have few)\n   - Identify critical weaknesses and risks (be thorough)\n   - Recommendation: \"Strong\" (8-10 avg), \"Moderate\" (5-7 avg), or \"Weak\" (1-4 avg)\n\n7. **Improvement Recommendations**: Provide specific, actionable recommendations.\n\nCRITICAL INSTRUCTIONS:\n- Analyze THIS specific concept, not a generic template"

def promptPostP7 : String :=
  "\n- Use DIFFERENT scores than 7, 8, or 7.3 unless that\x27s truly appropriate\n- Bad ideas MUST get low scores (1-4)\n- Good ideas get higher scores (7-10)\n- Overall score MUST match the average of the three dimension scores\n- Be HONEST and CRITICAL in your assessment\n\nReturn ONLY valid JSON in this exact structure (use ACTUAL scores for THIS concept):\n\x7b\n  \"competitors\": \x7b"

def promptPostP8 : String :=
  "\n    \"existingSolutions\": \"Your analysis of competitors and similar projects\",\n    \"differentiation\": \"How this concept differs\"\n  \x7d,\n  \"bmwAlignment\": \x7b\n    \"strategyFit\": \"Your assessment of BMW strategy alignment\",\n    \"brandFit\": \"Your assessment of brand fit\",\n    \"corporateValues\": \"Your assessment of values alignment\"\n  \x7d,\n  \"desirability\": \x7b\n    \"score\": <YOUR_ACTUAL_SCORE_1_TO_10>,"

def promptPostP9 : String :=
  "\n    \"justification\": \"Detailed justification based on THIS concept\",\n    \"marketNeed\": \"Your assessment of market need\",\n    \"customerAppeal\": \"Your assessment of customer appeal\"\n  \x7d,\n  \"feasibility\": \x7b\n    \"score\": <YOUR_ACTUAL_SCORE_1_TO_10>,\n    \"justification\": \"Detailed justification based on THIS concept\",\n    \"technicalComplexity\": \"Your assessment\","

def promptPostP10 : String :=
  "\n    \"resourceRequirements\": \"Your assessment\",\n    \"regulatoryChallenges\": \"Your assessment\"\n  \x7d,\n  \"viability\": \x7b\n    \"score\": <YOUR_ACTUAL_SCORE_1_TO_10>,\n    \"justification\": \"Detailed justification based on THIS concept\",\n    \"marketPotential\": \"Your assessment\",\n    \"costStructure\": \"Your assessment\",\n    \"competitivePositioning\": \"Your assessment\"\n  \x7d,\n  \"overallEvaluation\": \x7b"

def promptPostP11 : String :=
  "\n    \"overallScore\": <CALCULATED_AVERAGE_OF_THREE_SCORES>,\n    \"strengths\": [\"Actual strengths of THIS concept\"],\n    \"weaknesses\": [\"Actual weaknesses of THIS concept\"],\n    \"risks\": [\"Actual risks of THIS concept\"],\n    \"recommendation\": \"Strong\" or \"Moderate\" or \"Weak\"\n  \x7d,\n  \"improvements\": [\n    \"Specific recommendation 1\",\n    \"Specific recommendation 2\",\n    \"Specific recommendation 3\"\n  ]"

def promptPostP12 : String :=
  "\n\x7d"

/-- Part of the template literal after the placeholder. -/
def promptPost : String := promptPostP1 ++ promptPostP2 ++ promptPostP3 ++ promptPostP4 ++ promptPostP5 ++ promptPostP6 ++ promptPostP7 ++ promptPostP8 ++ promptPostP9 ++ promptPostP10 ++ promptPostP11 ++ promptPostP12

/-- Verbatim embedding of the template literal EVALUATION_PROMPT
(server/evaluator.js lines 27-133); the concatenation of the pieces is the
exact text between the backticks of the source literal. -/
def EVALUATION_PROMPT : String := promptPre ++ "\x7bideaDescription\x7d" ++ promptPost

/-- Verbatim embedding of the fixed system message (server/evaluator.js line 168). -/
def systemMessage : String :=
  "You are a critical innovation evaluation expert at BMW. You MUST provide honest, accurate scores based on the actual quality of each concept. Do NOT use template or example scores. Poor concepts must receive low scores (1-4), good concepts get higher scores (7-10). Always calculate the overall score as the average of desirability, feasibility, and viability scores. Be thorough and critical in your assessment. Return ONLY valid JSON."

/-- Placeholder token of the template. -/
def placeholderTok : List Char := "\x7bideaDescription\x7d".toList

/-- ECMAScript `GetSubstitution` for a string replacement value (no capture
groups): `$$` is a literal dollar, `$&` inserts the matched text, a dollar
followed by a backtick inserts the text before the match, `$\x27` inserts the
text after the match; anything else is copied verbatim. -/
def getSubstitution : List Char → List Char → List Char → List Char → List Char
  | [], _, _, _ => []
  | c :: r, m, b, a =>
    if c = '$' then
      match r with
      | [] => ['$']
      | d :: r2 =>
        if d = '$' then '$' :: getSubstitution r2 m b a
        else if d = '&' then m ++ getSubstitution r2 m b a
        else if d = '\x60' then b ++ getSubstitution r2 m b a
        else if d = '\x27' then a ++ getSubstitution r2 m b a
        else '$' :: getSubstitution (d :: r2) m b a
    else c :: getSubstitution r m b a

/-- Split at the first occurrence of `pat`: text before and text after. -/
def splitFirst (pat : List Char) : List Char → Option (List Char × List Char)
  | [] => if startsWithL [] pat then some ([], []) else none
  | c :: t =>
    if startsWithL (c :: t) pat then some ([], (c :: t).drop pat.length)
    else (splitFirst pat t).map (fun p => (c :: p.1, p.2))

/-- ECMAScript `String.prototype.replace` with a string pattern: replace the
first occurrence, applying `GetSubstitution` to the replacement text. -/
def jsReplaceFirst (s pat rep : List Char) : List Char :=
  match splitFirst pat s with
  | none => s
  | some (pre, post) => pre ++ getSubstitution rep pat pre post ++ post

/-- User message of the chat payload (`server/evaluator.js` line 158):
the template with the placeholder replaced by the idea description. -/
def userMessage (idea : List Char) : List Char :=
  jsReplaceFirst EVALUATION_PROMPT.toList placeholderTok idea

/-- Two-message chat payload (`server/evaluator.js` lines 165-171). -/
def buildMessages (idea : List Char) : List (List Char × List Char) :=
  [("system".toList, systemMessage.toList), ("user".toList, userMessage idea)]

/-! ## The evaluateInnovation operation -/

/-- Outcome of the outbound `fetch`: a network-level rejection carrying the
rejection message, or an HTTP response with a status code and a body text. -/
inductive FetchOutcome where
  | netErr : List Char → FetchOutcome
  | resp : Nat → List Char → FetchOutcome

/-- Error object returned by `evaluateInnovation` on any failure
(`server/evaluator.js` lines 222-226). -/
structure EvaluationFailure where
  error : List Char
  message : List Char
  fallback : Bool

/-- Result of `evaluateInnovation`: the parsed JSON value, or the failure
object. -/
inductive EvalResult where
  | ok : Json → EvalResult
  | fail : EvaluationFailure → EvalResult

/-- Message of the error thrown when the API key is missing
(`server/evaluator.js` line 22). -/
def missingKeyMsg : List Char :=
  "Hugging Face API key is required. Please set HUGGINGFACE_API_KEY in your .env file.".toList

/-- Message of the error thrown on a non-success HTTP status
(`server/evaluator.js` line 194). -/
def routerErrMsg (status : Nat) (body : List Char) : List Char :=
  "Hugging Face Router error ".toList ++ natDigits status ++ ':' :: ' ' :: body

/-- Rejection message of a failed `fetch` in Node (modelled constant). -/
def fetchFailMsg : List Char := "fetch failed".toList

/-- Message of a `JSON.parse` SyntaxError (modelled constant; the real text
is engine-specific and no claim depends on it). -/
def jsonParseErrMsg : List Char := "Unexpected token in JSON".toList

/-- Message of the TypeError raised by `content.match` when the content
field holds a truthy non-string (modelled constant). -/
def matchTypeErrMsg : List Char := "content.match is not a function".toList

/-- Message of the TypeError raised by reading `choices` on `null`
(modelled constant). -/
def nullPropErrMsg : List Char :=
  "Cannot read properties of null (reading \x27choices\x27)".toList

/-- First member with the given key, in source order. -/
def lookupMember : List (List Char × Json) → List Char → Option Json
  | [], _ => none
  | (k1, v) :: t, k => if k1 = k then some v else lookupMember t k

/-- JavaScript property access on a JSON value (`undefined` is `none`). -/
def jProp (j : Json) (k : List Char) : Option Json :=
  match j with
  | .obj l => lookupMember l k
  | _ => none

/-- JavaScript index access `[0]` on a JSON value. -/
def jIndex0 : Json → Option Json
  | .arr l => l.head?
  | .obj l => lookupMember l "0".toList
  | .str s => (s.head?).map (fun c => .str [c])
  | _ => none

/-- Optional chain `data.choices?.[0]?.message?.content`
(`server/evaluator.js` line 199). -/
def contentChain (data : Json) : Option Json :=
  (jProp data "choices".toList).bind (fun c =>
    (jIndex0 c).bind (fun c0 =>
      (jProp c0 "message".toList).bind (fun msg =>
        jProp msg "content".toList)))

/-- JavaScript falsiness of a JSON value. -/
def jsFalsy : Json → Bool
  | .null => true
  | .bool b => !b
  | .num m _ => m == 0
  | .str s => s.isEmpty
  | _ => false

/-- Completion content as a string: the optional chain followed by
`|| \x27\x27` (line 199); a truthy non-string content later throws a TypeError
at `content.match`, and a plain property read on `null` data throws. -/
def getContentE (data : Json) : Except (List Char) (List Char) :=
  match data with
  | .null => .error nullPropErrMsg
  | _ =>
    match contentChain data with
    | none => .ok []
    | some v =>
      if jsFalsy v then .ok []
      else
        match v with
        | .str s => .ok s
        | _ => .error matchTypeErrMsg

/-- Extraction followed by the `JSON.parse` step
(`server/evaluator.js` lines 202-216). -/
def extractEvaluation (content : List Char) : Except (List Char) Json :=
  match jsonParse (extractJsonContent content) with
  | some v => .ok v
  | none => .error jsonParseErrMsg

/-- Body of the `try` block of `evaluateInnovation`
(`server/evaluator.js` lines 155-216), with the outbound `fetch` mocked by a
list of prepared outcomes consumed from the front.  Every thrown exception
is an `.error` carrying the exception message. -/
def evalBody (apiKey : Option (List Char)) (responses : List FetchOutcome)
    (idea : List Char) : Except (List Char) Json :=
  match apiKey with
  | none => .error missingKeyMsg
  | some _ =>
    let prompt := userMessage idea
    let _messages := [("system".toList, systemMessage.toList), ("user".toList, prompt)]
    match responses with
    | [] => .error fetchFailMsg
    | outcome :: _ =>
      match outcome with
      | .netErr m => .error m
      | .resp status body =>
        if status < 200 || 299 < status then .error (routerErrMsg status body)
        else
          match jsonParse body with
          | none => .error jsonParseErrMsg
          | some data =>
            match getContentE data with
            | .error m => .error m
            | .ok content => extractEvaluation content

/-- Model of `evaluateInnovation` (`server/evaluator.js` lines 154-228):
the try body with its catch-all converting any exception into the fixed
failure object. -/
def evaluateInnovation (apiKey : Option (List Char))
    (responses : List FetchOutcome) (idea : List Char) : EvalResult :=
  match evalBody apiKey responses idea with
  | .ok v => .ok v
  | .error m => .fail ⟨"Failed to generate evaluation".toList, m, true⟩

/-! ## The POST /api/evaluate handler -/

/-- Response body sent by the handler. -/
inductive HandlerBody where
  | errObj : List Char → HandlerBody
  | evalOut : EvalResult → HandlerBody

/-- ECMAScript `String.prototype.trim`. -/
def jsTrim (s : List Char) : List Char :=
  ((s.dropWhile jsTrimWs).reverse.dropWhile jsTrimWs).reverse

/-- Model of the POST /api/evaluate handler (`server/index.js` lines 68-89):
missing or blank `ideaDescription` is rejected with status 400; otherwise
the result of `evaluateInnovation` — success or failure object alike — is
sent with `res.json`, whose default status is 200.  The catch/500 branch of
the handler is unreachable because `evaluateInnovation` never throws. -/
def handleEvaluate (apiKey : Option (List Char)) (responses : List FetchOutcome)
    (idea : Option (List Char)) : Nat × HandlerBody :=
  match idea with
  | none => (400, .errObj "Idea description is required".toList)
  | some s =>
    if jsTrim s = [] then (400, .errObj "Idea description is required".toList)
    else (200, .evalOut (evaluateInnovation apiKey responses s))

/-! ## Specification-side definitions -/

/-- Split a text at its last closing brace: `lastBraceSplit s = some (a, b)`
when `s = a ++ \x27\x7d\x27 :: b` and `b` contains no closing brace. -/
def lastBraceSplit : List Char → Option (List Char × List Char)
  | [] => none
  | c :: t =>
    match lastBraceSplit t with
    | some p => some (c :: p.1, p.2)
    | none => if c = '\x7d' then some ([], t) else none

/-- Specification wording of extraction step 2: the span from the first
opening brace to the last closing brace of the text (defined when a closing
brace follows the first opening brace). -/
def firstBraceSpan : List Char → Option (List Char)
  | [] => none
  | c :: t =>
    if c = '\x7b' then
      match lastBraceSplit t with
      | some p => some ('\x7b' :: p.1 ++ ['\x7d'])
      | none => none
    else firstBraceSpan t

/-- Statement of claim C1 as written: strategies in fixed order, first match
wins, where the guard of step 2 is that the text contains an opening brace
(and step 3 applies otherwise). -/
def C1claimStatement : Prop := ∀ content : List Char,
  (∀ w cap, jsMatch fencedRE content = some (w, some cap) →
    extractJsonContent content = cap)
  ∧ (jsMatch fencedRE content = none → '\x7b' ∈ content →
    ∃ sp, firstBraceSpan content = some sp ∧ extractJsonContent content = sp)
  ∧ (jsMatch fencedRE content = none → '\x7b' ∉ content →
    extractJsonContent content = content)


/-! ## Proof-support definitions -/

/-- The pattern can only succeed by consuming the character `c` somewhere. -/
def reqChar (c : Char) : RE → Bool
  | .eps => false
  | .lit d => c = d
  | .star _ => false
  | .seq a b => reqChar c a || reqChar c b
  | .alt a b => reqChar c a && reqChar c b
  | .gopen => false
  | .gclose => false

/-- Every successful path through the pattern passes the group-open mark. -/
def setsGS : RE → Bool
  | .seq a b => setsGS a || setsGS b
  | .alt a b => setsGS a && setsGS b
  | .gopen => true
  | _ => false

/-- Every successful path through the pattern passes the group-close mark. -/
def setsGE : RE → Bool
  | .seq a b => setsGE a || setsGE b
  | .alt a b => setsGE a && setsGE b
  | .gclose => true
  | _ => false

/-- No ECMAScript replacement pattern (`$$`, `$&`, dollar-backtick,
dollar-quote) occurs in the text. -/
def noDollarSpecial : List Char → Bool
  | [] => true
  | c :: t =>
    if c = '$' then
      match t with
      | [] => true
      | d :: _ => !(d = '$' || d = '&' || d = '\x60' || d = '\x27') && noDollarSpecial t
    else noDollarSpecial t

/-- The list does not begin with a character that could extend a preceding
numeric literal. -/
def numBoundary : List Char → Bool
  | [] => true
  | c :: _ => !(c.isDigit || c = '.' || c = 'e' || c = 'E')

mutual

/-- Size measure on JSON values, for strong induction. -/
def sizeJ : Json → Nat
  | .null => 1
  | .bool _ => 1
  | .num _ _ => 1
  | .str _ => 1
  | .arr l => sizeA l + 1
  | .obj l => sizeM l + 1

/-- Size measure on element lists. -/
def sizeA : List Json → Nat
  | [] => 0
  | j :: js => sizeJ j + sizeA js + 1

/-- Size measure on member lists. -/
def sizeM : List (List Char × Json) → Nat
  | [] => 0
  | kv :: t => sizeJ kv.2 + sizeM t + 1

end


/-- Completion text holding two fenced blocks, each with a valid JSON object
(claim C10). -/
def c10content : List Char :=
  "```json\n\x7b\"a\": 1\x7d\n```\nSome prose.\n```json\n\x7b\"b\": 2\x7d\n```".toList

/-- Span captured by the fenced regex on `c10content`: from the first
block\x27s opening brace to the second block\x27s closing brace. -/
def c10span : List Char :=
  "\x7b\"a\": 1\x7d\n```\nSome prose.\n```json\n\x7b\"b\": 2\x7d".toList


/-- Concatenation of a list of character lists. -/
def concatL : List (List Char) → List Char
  | [] => []
  | c :: t => c ++ concatL t

/-! ## Executable sanity checks of the embedding -/

theorem jsonParse_bare_number : jsonParse "3".toList = some (.num 3 0) := rfl
theorem jsonParse_object_example : jsonParse " \x7b\"a\": 1, \"b\": [true, null, \"x\"]\x7d ".toList
    = some (.obj [("a".toList, .num 1 0), ("b".toList, .arr [.bool true, .null, .str "x".toList])]) := rfl
theorem jsonParse_decimal : jsonParse "7.3".toList = some (.num 73 1) := rfl
theorem jsonParse_exponent : jsonParse "-0.015e1".toList = some (.num (-15) 2) := rfl
theorem stringify_decimal : stringifyJson (.num 73 1) = "7.3".toList := by decide
theorem stringify_escapes : stringifyJson (.obj [("a".toList, .str "x\n\"".toList)]) = "\x7b\"a\":\"x\\n\\\"\"\x7d".toList := by decide
theorem roundtrip_example : jsonParse (stringifyJson (.obj [("a".toList, .num 5 3)])) = some (.obj [("a".toList, .num 5 3)]) := rfl
theorem jsonParse_empty : jsonParse "".toList = none := rfl
theorem jsonParse_prose : jsonParse "Sure! not JSON".toList = none := rfl
theorem jsonParse_trailing : jsonParse "\x7b\"a\":1\x7d extra".toList = none := rfl
theorem extract_two_fences_span : extractJsonContent c10content = c10span := rfl
theorem two_fences_span_invalid : jsonParse c10span = none := rfl
theorem evaluate_two_fences_fails :
    evaluateInnovation (some "k".toList)
      [.resp 200 (stringifyJson (.obj [("choices".toList,
        .arr [.obj [("message".toList, .obj [("content".toList, .str c10content)])]])]))]
      "idea".toList
    = .fail ⟨"Failed to generate evaluation".toList, jsonParseErrMsg, true⟩ := rfl
theorem handle_blank_input : handleEvaluate none [] (some "   ".toList)
    = (400, .errObj "Idea description is required".toList) := rfl
theorem handle_missing_key : handleEvaluate none [] (some "A solar cargo bike".toList)
    = (200, .evalOut (.fail ⟨"Failed to generate evaluation".toList, missingKeyMsg, true⟩)) := rfl
theorem evaluate_router_503 :
    evaluateInnovation (some "k".toList) [.resp 503 "Service Unavailable".toList] "x".toList
    = .fail ⟨"Failed to generate evaluation".toList,
        "Hugging Face Router error 503: Service Unavailable".toList, true⟩ := rfl

/-! ## Matcher lemma kit -/

theorem oor_some {α : Type} (v : α) (b : Option α) : oor (some v) b = some v := rfl

theorem oor_none {α : Type} (b : Option α) : oor none b = b := rfl

theorem oor_map {α β : Type} (f : α → β) (a b : Option α) :
    (oor a b).map f = oor (a.map f) (b.map f) := by
  cases a <;> rfl

theorem starM_congr {α : Type} (p : Char → Bool) (gs ge : Option (List Char))
    (k k' : MState → Option α) (h : ∀ st, k st = k' st) :
    ∀ l, starM p gs ge k l = starM p gs ge k' l := by
  intro l
  induction l with
  | nil => exact h _
  | cons c t ih =>
    by_cases hp : p c <;> simp [starM, hp, ih, h]

theorem mRE_congr {α : Type} (r : RE) : ∀ (st : MState) (k k' : MState → Option α),
    (∀ st1, k st1 = k' st1) → mRE r st k = mRE r st k' := by
  induction r with
  | eps => intro st k k' h; exact h st
  | lit c =>
    intro st k k' h
    simp only [mRE]
    cases st.rem with
    | nil => rfl
    | cons x t => by_cases hx : x = c <;> simp [hx, h]
  | star p => intro st k k' h; exact starM_congr p st.gs st.ge k k' h st.rem
  | seq a b iha ihb =>
    intro st k k' h
    simp only [mRE]
    exact iha st _ _ (fun st1 => ihb st1 k k' h)
  | alt a b iha ihb =>
    intro st k k' h
    simp only [mRE]
    rw [iha st k k' h, ihb st k k' h]
  | gopen => intro st k k' h; exact h _
  | gclose => intro st k k' h; exact h _

theorem starM_none {α : Type} (p : Char → Bool) (gs ge : Option (List Char))
    (k : MState → Option α) :
    ∀ l, (∀ st, st.rem <:+ l → k st = none) → starM p gs ge k l = none := by
  intro l
  induction l with
  | nil => intro h; exact h ⟨[], gs, ge⟩ List.suffix_rfl
  | cons c t ih =>
    intro h
    by_cases hp : p c
    · have h1 : starM p gs ge k t = none :=
        ih (fun st hs => h st (hs.trans ⟨[c], rfl⟩))
      simp [starM, hp, h1, h ⟨c :: t, gs, ge⟩ List.suffix_rfl, oor]
    · simp [starM, hp, h ⟨c :: t, gs, ge⟩ List.suffix_rfl]

theorem mRE_none {α : Type} (r : RE) : ∀ (st : MState) (k : MState → Option α),
    (∀ st1, st1.rem <:+ st.rem → k st1 = none) → mRE r st k = none := by
  induction r with
  | eps => intro st k h; exact h st List.suffix_rfl
  | lit c =>
    intro st k h
    simp only [mRE]
    cases hrem : st.rem with
    | nil => rfl
    | cons x t =>
      by_cases hx : x = c
      · simp only [hx, if_pos rfl]
        exact h ⟨t, st.gs, st.ge⟩ (by rw [hrem]; exact ⟨[x], rfl⟩)
      · simp [hx]
  | star p => intro st k h; exact starM_none p st.gs st.ge k st.rem h
  | seq a b iha ihb =>
    intro st k h
    simp only [mRE]
    exact iha st _ (fun st1 hs => ihb st1 k (fun st2 hs2 => h st2 (hs2.trans hs)))
  | alt a b iha ihb =>
    intro st k h
    simp [mRE, iha st k h, ihb st k h, oor]
  | gopen => intro st k h; exact h _ List.suffix_rfl
  | gclose => intro st k h; exact h _ List.suffix_rfl

theorem mRE_reqChar {α : Type} (c : Char) (r : RE) :
    ∀ (st : MState) (k : MState → Option α),
    reqChar c r = true → c ∉ st.rem → mRE r st k = none := by
  induction r with
  | eps => intro st k h hc; simp [reqChar] at h
  | lit d =>
    intro st k h hc
    have hcd : c = d := by simpa [reqChar] using h
    simp only [mRE]
    cases hrem : st.rem with
    | nil => rfl
    | cons x t =>
      have hx : x ≠ d := by
        intro he
        exact hc (by rw [hrem, hcd, ← he]; exact List.mem_cons_self x t)
      simp [hx]
  | star p => intro st k h hc; simp [reqChar] at h
  | seq a b iha ihb =>
    intro st k h hc
    simp only [reqChar, Bool.or_eq_true] at h
    simp only [mRE]
    rcases h with ha | hb
    · exact iha st _ ha hc
    · exact mRE_none a st _
        (fun st1 hs => ihb st1 k hb (fun hmem => hc (hs.subset hmem)))
  | alt a b iha ihb =>
    intro st k h hc
    simp only [reqChar, Bool.and_eq_true] at h
    simp [mRE, iha st k h.1 hc, ihb st k h.2 hc, oor]
  | gopen => intro st k h hc; simp [reqChar] at h
  | gclose => intro st k h hc; simp [reqChar] at h

theorem matchAt_none_reqChar (c : Char) (r : RE) (s : List Char)
    (h : reqChar c r = true) (hc : c ∉ s) : matchAt r s = none :=
  mRE_reqChar c r ⟨s, none, none⟩ _ h hc

theorem jsMatch_none_reqChar (c : Char) (r : RE) (h : reqChar c r = true) :
    ∀ s, c ∉ s → jsMatch r s = none := by
  intro s
  induction s with
  | nil => intro hc; simp [jsMatch, matchAt_none_reqChar c r [] h hc]
  | cons x t ih =>
    intro hc
    have h1 : matchAt r (x :: t) = none := matchAt_none_reqChar c r (x :: t) h hc
    have h2 : jsMatch r t = none := ih (fun hm => hc (List.mem_cons_of_mem x hm))
    simp [jsMatch, h1, h2]

theorem reqChar_obrace_fenced : reqChar '\x7b' fencedRE = true := rfl

theorem reqChar_obrace_obj : reqChar '\x7b' objRE = true := rfl

theorem reqChar_cbrace_obj : reqChar '\x7d' objRE = true := rfl

theorem starM_map {α β : Type} (f : α → β) (p : Char → Bool)
    (gs ge : Option (List Char)) (k : MState → Option α) :
    ∀ l, (starM p gs ge k l).map f = starM p gs ge (fun st => (k st).map f) l := by
  intro l
  induction l with
  | nil => rfl
  | cons c t ih => by_cases hp : p c <;> simp [starM, hp, oor_map, ih]

theorem mRE_map {α β : Type} (f : α → β) (r : RE) :
    ∀ (st : MState) (k : MState → Option α),
    (mRE r st k).map f = mRE r st (fun st1 => (k st1).map f) := by
  induction r with
  | eps => intro st k; rfl
  | lit c =>
    intro st k
    simp only [mRE]
    cases st.rem with
    | nil => rfl
    | cons x t => by_cases hx : x = c <;> simp [hx]
  | star p => intro st k; exact starM_map f p st.gs st.ge k st.rem
  | seq a b iha ihb =>
    intro st k
    simp only [mRE]
    rw [iha]
    exact mRE_congr a st _ _ (fun st1 => ihb st1 k)
  | alt a b iha ihb =>
    intro st k
    simp [mRE, oor_map, iha, ihb]
  | gopen => intro st k; rfl
  | gclose => intro st k; rfl

theorem starM_ge_persist {α : Type} (p : Char → Bool) (gs ge : Option (List Char))
    (k k' : MState → Option α) (hge : ge.isSome)
    (h : ∀ st1, st1.ge.isSome → k st1 = k' st1) :
    ∀ l, starM p gs ge k l = starM p gs ge k' l := by
  intro l
  induction l with
  | nil => exact h ⟨[], gs, ge⟩ hge
  | cons c t ih =>
    by_cases hp : p c
    · simp only [starM, hp, if_true]
      rw [ih, h ⟨c :: t, gs, ge⟩ hge]
    · simp only [starM, hp, if_false]
      exact h ⟨c :: t, gs, ge⟩ hge

theorem mRE_ge_persist {α : Type} (r : RE) :
    ∀ (st : MState) (k k' : MState → Option α), st.ge.isSome →
    (∀ st1, st1.ge.isSome → k st1 = k' st1) → mRE r st k = mRE r st k' := by
  induction r with
  | eps => intro st k k' hge h; exact h st hge
  | lit c =>
    intro st k k' hge h
    simp only [mRE]
    cases st.rem with
    | nil => rfl
    | cons x t =>
      by_cases hx : x = c
      · simp only [hx, if_pos rfl]
        exact h ⟨t, st.gs, st.ge⟩ hge
      · simp [hx]
  | star p =>
    intro st k k' hge h
    exact starM_ge_persist p st.gs st.ge k k' hge h st.rem
  | seq a b iha ihb =>
    intro st k k' hge h
    simp only [mRE]
    exact iha st _ _ hge (fun st1 hge1 => ihb st1 k k' hge1 h)
  | alt a b iha ihb =>
    intro st k k' hge h
    simp only [mRE]
    rw [iha st k k' hge h, ihb st k k' hge h]
  | gopen => intro st k k' hge h; exact h ⟨st.rem, some st.rem, st.ge⟩ hge
  | gclose => intro st k k' hge h; exact h ⟨st.rem, st.gs, some st.rem⟩ rfl

theorem starM_gs_persist {α : Type} (p : Char → Bool) (gs ge : Option (List Char))
    (k k' : MState → Option α) (hgs : gs.isSome)
    (h : ∀ st1, st1.gs.isSome → k st1 = k' st1) :
    ∀ l, starM p gs ge k l = starM p gs ge k' l := by
  intro l
  induction l with
  | nil => exact h ⟨[], gs, ge⟩ hgs
  | cons c t ih =>
    by_cases hp : p c
    · simp only [starM, hp, if_true]
      rw [ih, h ⟨c :: t, gs, ge⟩ hgs]
    · simp only [starM, hp, if_false]
      exact h ⟨c :: t, gs, ge⟩ hgs

theorem mRE_gs_persist {α : Type} (r : RE) :
    ∀ (st : MState) (k k' : MState → Option α), st.gs.isSome →
    (∀ st1, st1.gs.isSome → k st1 = k' st1) → mRE r st k = mRE r st k' := by
  induction r with
  | eps => intro st k k' hgs h; exact h st hgs
  | lit c =>
    intro st k k' hgs h
    simp only [mRE]
    cases st.rem with
    | nil => rfl
    | cons x t =>
      by_cases hx : x = c
      · simp only [hx, if_pos rfl]
        exact h ⟨t, st.gs, st.ge⟩ hgs
      · simp [hx]
  | star p =>
    intro st k k' hgs h
    exact starM_gs_persist p st.gs st.ge k k' hgs h st.rem
  | seq a b iha ihb =>
    intro st k k' hgs h
    simp only [mRE]
    exact iha st _ _ hgs (fun st1 hgs1 => ihb st1 k k' hgs1 h)
  | alt a b iha ihb =>
    intro st k k' hgs h
    simp only [mRE]
    rw [iha st k k' hgs h, ihb st k k' hgs h]
  | gopen => intro st k k' hgs h; exact h ⟨st.rem, some st.rem, st.ge⟩ rfl
  | gclose => intro st k k' hgs h; exact h ⟨st.rem, st.gs, some st.rem⟩ hgs

theorem setsGE_marks {α : Type} (r : RE) :
    ∀ (st : MState) (k k' : MState → Option α), setsGE r = true →
    (∀ st1, st1.ge.isSome → k st1 = k' st1) → mRE r st k = mRE r st k' := by
  induction r with
  | eps => intro st k k' h; simp [setsGE] at h
  | lit c => intro st k k' h; simp [setsGE] at h
  | star p => intro st k k' h; simp [setsGE] at h
  | seq a b iha ihb =>
    intro st k k' h hk
    simp only [setsGE, Bool.or_eq_true] at h
    simp only [mRE]
    rcases h with ha | hb
    · exact iha st _ _ ha (fun st1 hge1 => mRE_ge_persist b st1 k k' hge1 hk)
    · exact mRE_congr a st _ _ (fun st1 => ihb st1 k k' hb hk)
  | alt a b iha ihb =>
    intro st k k' h hk
    simp only [setsGE, Bool.and_eq_true] at h
    simp only [mRE]
    rw [iha st k k' h.1 hk, ihb st k k' h.2 hk]
  | gopen => intro st k k' h; simp [setsGE] at h
  | gclose => intro st k k' h hk; exact hk ⟨st.rem, st.gs, some st.rem⟩ rfl

theorem setsGS_marks {α : Type} (r : RE) :
    ∀ (st : MState) (k k' : MState → Option α), setsGS r = true →
    (∀ st1, st1.gs.isSome → k st1 = k' st1) → mRE r st k = mRE r st k' := by
  induction r with
  | eps => intro st k k' h; simp [setsGS] at h
  | lit c => intro st k k' h; simp [setsGS] at h
  | star p => intro st k k' h; simp [setsGS] at h
  | seq a b iha ihb =>
    intro st k k' h hk
    simp only [setsGS, Bool.or_eq_true] at h
    simp only [mRE]
    rcases h with ha | hb
    · exact iha st _ _ ha (fun st1 hgs1 => mRE_gs_persist b st1 k k' hgs1 hk)
    · exact mRE_congr a st _ _ (fun st1 => ihb st1 k k' hb hk)
  | alt a b iha ihb =>
    intro st k k' h hk
    simp only [setsGS, Bool.and_eq_true] at h
    simp only [mRE]
    rw [iha st k k' h.1 hk, ihb st k k' h.2 hk]
  | gopen => intro st k k' h hk; exact hk ⟨st.rem, some st.rem, st.ge⟩ rfl
  | gclose => intro st k k' h; simp [setsGS] at h

theorem setsGE_fenced : setsGE fencedRE = true := rfl

theorem setsGS_fenced : setsGS fencedRE = true := rfl

theorem matchAt_fenced_cap (s : List Char) (w : List Char) (c : Option (List Char))
    (h : matchAt fencedRE s = some (w, c)) : c.isSome := by
  have h1 : matchAt fencedRE s
      = mRE fencedRE ⟨s, none, none⟩ (fun st =>
          match st.gs, st.ge with
          | some a, some b =>
            some (s.take (s.length - st.rem.length), some (a.take (a.length - b.length)))
          | some _, none => none
          | none, some _ => none
          | none, none => none) := by
    unfold matchAt
    rw [setsGE_marks fencedRE ⟨s, none, none⟩ _
      (fun st =>
        match st.ge with
        | some _ => some (s.take (s.length - st.rem.length), capOf st)
        | none => none)
      setsGE_fenced (fun st1 hge1 => by
        obtain ⟨rem1, gs1, ge1⟩ := st1
        cases ge1 with
        | none => simp at hge1
        | some b => rfl)]
    exact setsGS_marks fencedRE ⟨s, none, none⟩ _ _ setsGS_fenced (fun st1 hgs1 => by
      obtain ⟨rem1, gs1, ge1⟩ := st1
      cases gs1 with
      | none => simp at hgs1
      | some a => cases ge1 <;> simp [capOf])
  have h2 : mRE fencedRE ⟨s, none, none⟩ (fun st =>
      match st.gs, st.ge with
      | some a, some b =>
        some (s.take (s.length - st.rem.length), some (a.take (a.length - b.length)))
      | some _, none => none
      | none, some _ => none
      | none, none => none)
      = (mRE fencedRE ⟨s, none, none⟩ (fun st =>
          match st.gs, st.ge with
          | some a, some b =>
            some ((s.take (s.length - st.rem.length), a.take (a.length - b.length)))
          | some _, none => none
          | none, some _ => none
          | none, none => none)).map
        (fun p => (p.1, some p.2)) := by
    rw [mRE_map]
    exact mRE_congr _ _ _ _ (fun st1 => by
      obtain ⟨rem1, gs1, ge1⟩ := st1
      cases gs1 <;> cases ge1 <;> simp)
  rw [h1, h2] at h
  rcases Option.map_eq_some'.mp h with ⟨p, _, hp⟩
  have hc : c = some p.2 := ((Prod.mk.injEq _ _ _ _).mp hp).2.symm
  simp [hc]

theorem jsMatch_fenced_cap (s : List Char) (w : List Char) (c : Option (List Char))
    (h : jsMatch fencedRE s = some (w, c)) : c.isSome := by
  induction s with
  | nil => exact matchAt_fenced_cap [] w c (by simpa [jsMatch] using h)
  | cons x t ih =>
    simp only [jsMatch] at h
    cases hm : matchAt fencedRE (x :: t) with
    | some m =>
      rw [hm] at h
      simp at h
      exact matchAt_fenced_cap (x :: t) w c (by rw [hm, h])
    | none =>
      rw [hm] at h
      exact ih h

/-! ## Characterization of the brace-to-brace regex -/

theorem take_append_len {α : Type} (a : List α) :
    ∀ (b : List α) (k : Nat), (a ++ b).take (a.length + k) = a ++ b.take k := by
  induction a with
  | nil => intro b k; simp
  | cons x xs ih => intro b k; simp [List.length_cons, ih, Nat.succ_add]

theorem lastBraceSplit_eq : ∀ (t a b : List Char),
    lastBraceSplit t = some (a, b) → t = a ++ '\x7d' :: b := by
  intro t
  induction t with
  | nil => intro a b h; simp [lastBraceSplit] at h
  | cons x xs ih =>
    intro a b h
    simp only [lastBraceSplit] at h
    cases hxs : lastBraceSplit xs with
    | some p =>
      rw [hxs] at h
      simp only [Option.some.injEq, Prod.mk.injEq] at h
      rcases h with ⟨h1, h2⟩
      rw [← h1, ← h2]
      have := ih p.1 p.2 (by rw [hxs])
      simp [this]
    | none =>
      rw [hxs] at h
      by_cases hx : x = '\x7d'
      · rw [if_pos hx] at h
        injection h with hp
        have ha := congrArg Prod.fst hp
        have hb := congrArg Prod.snd hp
        simp only [] at ha hb
        rw [← ha, ← hb]
        simp [hx]
      · simp [hx] at h

theorem lastBraceSplit_none : ∀ (t : List Char),
    lastBraceSplit t = none ↔ '\x7d' ∉ t := by
  intro t
  induction t with
  | nil => simp [lastBraceSplit]
  | cons x xs ih =>
    simp only [lastBraceSplit]
    cases hxs : lastBraceSplit xs with
    | some p =>
      simp only []
      constructor
      · intro h; exact absurd h (by simp)
      · intro h
        exact absurd (ih.mpr (fun hm => h (List.mem_cons_of_mem x hm))) (by simp [hxs])
    | none =>
      by_cases hx : x = '\x7d'
      · simp [hx]
      · rw [if_neg hx]
        constructor
        · intro _ hm
          rcases List.mem_cons.mp hm with h1 | h2
          · exact hx h1.symm
          · exact (ih.mp hxs) h2
        · intro _; rfl

theorem matchAt_objRE_ne (c : Char) (t : List Char) (hc : c ≠ '\x7b') :
    matchAt objRE (c :: t) = none := by
  simp [matchAt, objRE, mRE, hc]

theorem matchAt_objRE_brace (t : List Char) :
    matchAt objRE ('\x7b' :: t)
      = match lastBraceSplit t with
        | some p => some ('\x7b' :: p.1 ++ ['\x7d'], none)
        | none => none := by
  have hk : matchAt objRE ('\x7b' :: t)
      = starM (fun _ => true) none none
          (fun st2 => mRE (.lit '\x7d') st2 (fun st3 =>
            some ((('\x7b' :: t).take (('\x7b' :: t).length - st3.rem.length)), capOf st3))) t := by
    simp [matchAt, objRE, mRE]
  rw [hk]
  have key : ∀ (u : List Char),
      starM (fun _ => true) none none
        (fun st2 => mRE (.lit '\x7d') st2 (fun st3 =>
          some ((('\x7b' :: t).take (('\x7b' :: t).length - st3.rem.length)), capOf st3))) u
      = match lastBraceSplit u with
        | some p =>
          some ((('\x7b' :: t).take (('\x7b' :: t).length - p.2.length)), none)
        | none => none := by
    intro u
    induction u with
    | nil => simp [starM, mRE, lastBraceSplit]
    | cons x xs ih =>
      simp only [starM, if_true]
      rw [ih]
      cases hxs : lastBraceSplit xs with
      | some p => simp [lastBraceSplit, hxs, oor]
      | none =>
        by_cases hx : x = '\x7d'
        · simp [lastBraceSplit, hxs, hx, oor, mRE, capOf]
        · simp [lastBraceSplit, hxs, hx, oor, mRE, capOf]
  rw [key t]
  cases ht : lastBraceSplit t with
  | none => rfl
  | some p =>
    simp only []
    have hdecomp : t = p.1 ++ '\x7d' :: p.2 := lastBraceSplit_eq t p.1 p.2 ht
    have hlen : ('\x7b' :: t).length - p.2.length = ('\x7b' :: p.1).length + 1 := by
      rw [hdecomp]
      simp [List.length_append]
      omega
    rw [hlen]
    have : ('\x7b' :: t) = ('\x7b' :: p.1) ++ '\x7d' :: p.2 := by rw [hdecomp]; rfl
    rw [this, take_append_len ('\x7b' :: p.1) ('\x7d' :: p.2) 1]
    simp

theorem jsMatch_objRE_eq : ∀ (s : List Char),
    jsMatch objRE s = (firstBraceSpan s).map (fun sp => (sp, none)) := by
  intro s
  induction s with
  | nil => simp [jsMatch, matchAt, objRE, mRE, firstBraceSpan]
  | cons c t ih =>
    by_cases hc : c = '\x7b'
    · subst hc
      simp only [jsMatch]
      rw [matchAt_objRE_brace t]
      cases ht : lastBraceSplit t with
      | some p => simp [firstBraceSpan, ht]
      | none =>
        have hnb : '\x7d' ∉ t := (lastBraceSplit_none t).mp ht
        have := jsMatch_none_reqChar '\x7d' objRE reqChar_cbrace_obj t hnb
        simp [firstBraceSpan, ht, this]
    · simp only [jsMatch]
      rw [matchAt_objRE_ne c t hc]
      simp [firstBraceSpan, hc, ih]

/-! ## Containment helper lemmas -/

theorem startsWithL_self_append : ∀ (p rest : List Char), startsWithL (p ++ rest) p = true := by
  intro p
  induction p with
  | nil => intro rest; cases rest <;> rfl
  | cons c t ih => intro rest; simp [startsWithL, ih]

theorem containsSub_append_middle : ∀ (a mid b : List Char),
    containsSub (a ++ (mid ++ b)) mid = true := by
  intro a mid b
  induction a with
  | nil =>
    cases mid with
    | nil => cases b <;> simp [containsSub, startsWithL]
    | cons m mt =>
      have h := startsWithL_self_append (m :: mt) b
      simp only [List.cons_append] at h
      simp [containsSub, h]
  | cons c a' ih => simp [containsSub, ih]

/-! ## Claim C1: extraction strategy order -/

/-- C1 (amended): the extraction strategies are tried in a fixed order with
the first match winning: if the fenced regex matches, its captured group is
taken (the capture group is always defined on a match); otherwise, if the
text contains an opening brace with a closing brace somewhere after it, the
span from the first opening brace to the last closing brace is taken;
otherwise the original text is passed through unchanged. -/
theorem C1_theorem : ∀ (content : List Char),
    (∀ w cap, jsMatch fencedRE content = some (w, some cap) →
      extractJsonContent content = cap)
    ∧ (∀ w, jsMatch fencedRE content = some (w, none) → False)
    ∧ (jsMatch fencedRE content = none →
      extractJsonContent content = (firstBraceSpan content).getD content) := by
  intro content
  refine ⟨?_, ?_, ?_⟩
  · intro w cap h
    simp [extractJsonContent, h]
  · intro w h
    have := jsMatch_fenced_cap content w none h
    simp at this
  · intro h
    simp only [extractJsonContent, h]
    rw [jsMatch_objRE_eq]
    cases firstBraceSpan content <;> simp

/-- C1 witness: on a completion with no fences the brace-to-brace span from
the first opening to the last closing brace is extracted. -/
theorem C1_witness :
    extractJsonContent "x \x7by\x7d z".toList = "\x7by\x7d".toList := by
  have h := (C1_theorem ("x \x7by\x7d z".toList)).2.2 rfl
  exact h.trans rfl

/-- C1 counterexample: the claim as stated guards step 2 only by the presence
of an opening brace; on the text `a\x7bb`, which contains an opening brace but
no closing brace, no first-to-last-brace span exists and the code falls
through to the unchanged text, so the claimed trichotomy fails. -/
theorem C1_counterexample : ¬ C1claimStatement := by
  intro h
  rcases (h "a\x7bb".toList).2.1 rfl (by decide) with ⟨sp, hsp, _⟩
  have hnone : firstBraceSpan "a\x7bb".toList = none := rfl
  rw [hnone] at hsp
  exact Option.noConfusion hsp

/-! ## Claim C3: completion with no opening brace -/

/-- C3 counterexample: the completion text `3` contains no opening brace,
yet the Extractor does not fail: the full text is passed to `JSON.parse`,
which parses the number 3, and `evaluateInnovation` returns it as the
evaluation — not an EvaluationFailure. -/
theorem C3_counterexample :
    '\x7b' ∉ "3".toList
    ∧ extractEvaluation "3".toList = .ok (.num 3 0)
    ∧ evaluateInnovation (some "k".toList)
        [.resp 200 (stringifyJson (.obj [("choices".toList,
          .arr [.obj [("message".toList, .obj [("content".toList, .str "3".toList)])]])]))]
        "idea".toList
      = .ok (.num 3 0) := by
  exact ⟨by decide, rfl, rfl⟩

/-- C3 (amended): on completion text with no opening brace both extraction
regexes fail, so the full text reaches `JSON.parse` unchanged; when that text
is not itself valid JSON the result is a parse error; when the full text is
valid non-object JSON (a bare number, string, array or literal) that value is
returned as-is. -/
theorem C3_theorem : ∀ (content : List Char), '\x7b' ∉ content →
    extractJsonContent content = content
    ∧ (jsonParse content = none → extractEvaluation content = .error jsonParseErrMsg) := by
  intro content hc
  have h1 : jsMatch fencedRE content = none :=
    jsMatch_none_reqChar '\x7b' fencedRE reqChar_obrace_fenced content hc
  have h2 : jsMatch objRE content = none :=
    jsMatch_none_reqChar '\x7b' objRE reqChar_obrace_obj content hc
  have hext : extractJsonContent content = content := by
    simp [extractJsonContent, h1, h2]
  refine ⟨hext, ?_⟩
  intro hp
  simp [extractEvaluation, hext, hp]

/-- C3 witness: prose with no brace and no valid JSON yields the parse
error. -/
theorem C3_witness :
    extractEvaluation "Sure! not JSON at all.".toList = .error jsonParseErrMsg :=
  (C3_theorem ("Sure! not JSON at all.".toList) (by decide)).2 rfl

/-! ## Claim C6: uniform failure shape -/

/-- C6: `evaluateInnovation` is a total function of its inputs — no exception
escapes — and every failure path yields the same shape: the fixed error
string, a message, and `fallback := true`. -/
theorem C6_theorem : ∀ (key : Option (List Char)) (resps : List FetchOutcome)
    (idea : List Char),
    (∃ v, evaluateInnovation key resps idea = .ok v)
    ∨ (∃ m, evaluateInnovation key resps idea
        = .fail ⟨"Failed to generate evaluation".toList, m, true⟩) := by
  intro key resps idea
  cases h : evalBody key resps idea with
  | ok v => exact .inl ⟨v, by simp [evaluateInnovation, h]⟩
  | error m => exact .inr ⟨m, by simp [evaluateInnovation, h]⟩

/-! ## Claim C7: non-2xx status -/

/-- C7: on a non-success HTTP status the call is not retried (the result does
not depend on any further prepared responses) and the result is the failure
object whose message contains the numeric status code. -/
theorem C7_theorem : ∀ (key : List Char) (resps resps2 : List FetchOutcome)
    (idea : List Char) (status : Nat) (body : List Char),
    status < 200 ∨ 299 < status →
    evaluateInnovation (some key) (.resp status body :: resps) idea
      = .fail ⟨"Failed to generate evaluation".toList, routerErrMsg status body, true⟩
    ∧ containsSub (routerErrMsg status body) (natDigits status) = true
    ∧ evaluateInnovation (some key) (.resp status body :: resps) idea
      = evaluateInnovation (some key) (.resp status body :: resps2) idea := by
  intro key resps resps2 idea status body h
  have hb : (status < 200 || 299 < status) = true := by
    rcases h with h1 | h1 <;> simp [h1]
  refine ⟨?_, ?_, rfl⟩
  · simp [evaluateInnovation, evalBody, hb]
  · show containsSub ("Hugging Face Router error ".toList
      ++ (natDigits status ++ ':' :: ' ' :: body)) (natDigits status) = true
    exact containsSub_append_middle _ _ _

/-- C7 witness: a mocked 503 yields the failure object with the status code
in the message, and the result ignores any further prepared responses. -/
theorem C7_witness :
    evaluateInnovation (some "k".toList) [.resp 503 "Service Unavailable".toList] "i".toList
      = .fail ⟨"Failed to generate evaluation".toList,
          routerErrMsg 503 "Service Unavailable".toList, true⟩
    ∧ containsSub (routerErrMsg 503 "Service Unavailable".toList) (natDigits 503) = true
    ∧ evaluateInnovation (some "k".toList) [.resp 503 "Service Unavailable".toList] "i".toList
      = evaluateInnovation (some "k".toList)
          [.resp 503 "Service Unavailable".toList, .resp 200 "retry".toList] "i".toList :=
  C7_theorem "k".toList [] [.resp 200 "retry".toList] "i".toList 503
    "Service Unavailable".toList (.inr (by decide))

/-! ## Claim C8: handler translation of failures -/

/-- C8: evaluation of the handler model.  A missing API key makes
`evaluateInnovation` return an EvaluationFailure, and the handler sends it
with success status 200 — not a 5xx — because `res.json(evaluation)` keeps
the default status and `evaluateInnovation` never throws; this contradicts
the handler doc comment, which promises status 500 when evaluation fails.
Blank and absent `ideaDescription` are rejected with 400 before
`evaluateInnovation` runs. -/
theorem C8_theorem :
    handleEvaluate none [] (some "A solar cargo bike".toList)
      = (200, .evalOut (.fail ⟨"Failed to generate evaluation".toList, missingKeyMsg, true⟩))
    ∧ handleEvaluate none [] (some "   ".toList)
      = (400, .errObj "Idea description is required".toList)
    ∧ handleEvaluate none [] none
      = (400, .errObj "Idea description is required".toList) :=
  ⟨rfl, rfl, rfl⟩

/-! ## Claim C9: missing fields in the provider response -/

/-- C9 counterexample: a successful response whose JSON body is `null` also
lacks `choices`, but the completion content is not treated as the empty
string: the unguarded property read `data.choices` throws a TypeError, which
the catch converts to a failure carrying the TypeError message rather than
the parse-step message. -/
theorem C9_counterexample :
    evaluateInnovation (some "k".toList) [.resp 200 "null".toList] "i".toList
      = .fail ⟨"Failed to generate evaluation".toList, nullPropErrMsg, true⟩
    ∧ nullPropErrMsg ≠ jsonParseErrMsg :=
  ⟨rfl, by decide⟩

/-- C9 (amended): on a successful status whose body parses to any non-null
JSON value in which the optional chain `choices?.[0]?.message?.content`
comes up undefined, the content defaults to the empty string, extraction
passes it through, and the call fails at the parse step with the uniform
failure shape — no property-access error escapes. -/
theorem C9_theorem : ∀ (key : List Char) (resps : List FetchOutcome)
    (idea : List Char) (status : Nat) (body : List Char) (data : Json),
    200 ≤ status → status ≤ 299 →
    jsonParse body = some data → data ≠ .null →
    contentChain data = none →
    evaluateInnovation (some key) (.resp status body :: resps) idea
      = .fail ⟨"Failed to generate evaluation".toList, jsonParseErrMsg, true⟩ := by
  intro key resps idea status body data h1 h2 hparse hnull hchain
  have hb : (status < 200 || 299 < status) = false := by
    simp
    omega
  have hcontent : getContentE data = .ok [] := by
    cases data with
    | null => exact absurd rfl hnull
    | bool b => simp [getContentE, hchain]
    | num m e => simp [getContentE, hchain]
    | str s => simp [getContentE, hchain]
    | arr l => simp [getContentE, hchain]
    | obj l => simp [getContentE, hchain]
  simp only [evaluateInnovation, evalBody, hb, hparse, hcontent, Bool.false_eq_true,
    if_false]
  rfl

/-- C9 witness: a successful response with body `\x7b\x7d` (an object with no
`choices`) produces the parse-step failure. -/
theorem C9_witness :
    evaluateInnovation (some "k".toList) [.resp 200 "\x7b\x7d".toList] "i".toList
      = .fail ⟨"Failed to generate evaluation".toList, jsonParseErrMsg, true⟩ :=
  C9_theorem "k".toList [] "i".toList 200 "\x7b\x7d".toList (.obj [])
    (by decide) (by decide) rfl (fun h => Json.noConfusion h) rfl

/-! ## Claim C10: two fenced blocks -/

/-- C10: on a completion with two fenced blocks, each holding valid JSON,
the greedy fenced regex matches once with a capture stretching from the
first block's opening brace to the second block's closing brace, prose
included; that span is not valid JSON, so the call returns the failure
object rather than either block's object. -/
theorem C10_theorem :
    jsMatch fencedRE c10content = some (c10content, some c10span)
    ∧ extractJsonContent c10content = c10span
    ∧ c10span = "\x7b\"a\": 1\x7d".toList ++ "\n```\nSome prose.\n```json\n".toList
        ++ "\x7b\"b\": 2\x7d".toList
    ∧ jsonParse "\x7b\"a\": 1\x7d".toList = some (.obj [("a".toList, .num 1 0)])
    ∧ jsonParse "\x7b\"b\": 2\x7d".toList = some (.obj [("b".toList, .num 2 0)])
    ∧ jsonParse c10span = none
    ∧ evaluateInnovation (some "k".toList)
        [.resp 200 (stringifyJson (.obj [("choices".toList,
          .arr [.obj [("message".toList, .obj [("content".toList, .str c10content)])]])]))]
        "idea".toList
      = .fail ⟨"Failed to generate evaluation".toList, jsonParseErrMsg, true⟩ :=
  ⟨rfl, rfl, rfl, rfl, rfl, rfl, rfl⟩


/-! ## Claim C4: prompt builder -/

theorem getSubstitution_id_aux : ∀ (n : Nat) (rep m b a : List Char),
    rep.length ≤ n → noDollarSpecial rep = true → getSubstitution rep m b a = rep := by
  intro n
  induction n with
  | zero =>
    intro rep m b a hlen h
    have hr : rep = [] := List.length_eq_zero.mp (Nat.le_zero.mp hlen)
    rw [hr]
    rfl
  | succ n ih =>
    intro rep m b a hlen h
    cases rep with
    | nil => rfl
    | cons c r =>
      by_cases hc : c = '$'
      · subst hc
        cases r with
        | nil => rfl
        | cons d r2 =>
          have hh : (!(d = '$' || d = '&' || d = '\x60' || d = '\x27')
              && noDollarSpecial (d :: r2)) = true := by
            simpa [noDollarSpecial] using h
          rw [Bool.and_eq_true] at hh
          obtain ⟨hspec, hrest⟩ := hh
          have hd1 : d ≠ '$' := by intro he; rw [he] at hspec; simp at hspec
          have hd2 : d ≠ '&' := by intro he; rw [he] at hspec; simp at hspec
          have hd3 : d ≠ '\x60' := by intro he; rw [he] at hspec; simp at hspec
          have hd4 : d ≠ '\x27' := by intro he; rw [he] at hspec; simp at hspec
          have hlen2 : (d :: r2).length ≤ n := by
            simp only [List.length_cons] at hlen ⊢
            omega
          simp [getSubstitution, hd1, hd2, hd3, hd4, ih (d :: r2) m b a hlen2 hrest]
      · have hr : noDollarSpecial r = true := by simpa [noDollarSpecial, hc] using h
        have hlen2 : r.length ≤ n := by
          simp only [List.length_cons] at hlen
          omega
        conv_lhs => rw [getSubstitution.eq_def]
        simp only [hc, if_false]
        rw [ih r m b a hlen2 hr]

theorem getSubstitution_id (rep m b a : List Char) (h : noDollarSpecial rep = true) :
    getSubstitution rep m b a = rep :=
  getSubstitution_id_aux rep.length rep m b a le_rfl h

theorem drop_append_len {α : Type} (a : List α) : ∀ (b : List α),
    (a ++ b).drop a.length = b := by
  induction a with
  | nil => intro b; rfl
  | cons x xs ih => intro b; simp [List.length_cons, ih]

theorem splitFirst_found : ∀ (pre pt post : List Char), '\x7b' ∉ pre →
    splitFirst ('\x7b' :: pt) (pre ++ '\x7b' :: (pt ++ post)) = some (pre, post) := by
  intro pre pt post hpre
  induction pre with
  | nil =>
    have hsw : startsWithL ('\x7b' :: (pt ++ post)) ('\x7b' :: pt) = true := by
      have h0 := startsWithL_self_append ('\x7b' :: pt) post
      simp only [List.cons_append] at h0
      exact h0
    have hdrop : ('\x7b' :: (pt ++ post)).drop ('\x7b' :: pt).length = post := by
      have h0 := drop_append_len ('\x7b' :: pt) post
      simp only [List.cons_append] at h0
      exact h0
    simp [splitFirst, hsw, hdrop]
  | cons c pre2 ih =>
    have hc : c ≠ '\x7b' := fun he => hpre (he ▸ List.mem_cons_self c pre2)
    have hsw : startsWithL (c :: (pre2 ++ '\x7b' :: (pt ++ post))) ('\x7b' :: pt) = false := by
      simp [startsWithL, hc]
    simp [splitFirst, hsw, ih (fun hm => hpre (List.mem_cons_of_mem c hm))]

theorem startsWithL_cross (pat : List Char) (d : Char) (hd : d ∉ pat) :
    ∀ (a b2 : List Char), startsWithL (a ++ d :: b2) pat = startsWithL a pat := by
  induction pat with
  | nil => intro a b2; cases a <;> rfl
  | cons p pt ih =>
    intro a b2
    cases a with
    | nil =>
      have hdp : d ≠ p := fun he => hd (he ▸ List.mem_cons_self p pt)
      simp [startsWithL, hdp]
    | cons c a2 =>
      simp [startsWithL, List.cons_append,
        ih (fun hm => hd (List.mem_cons_of_mem p hm)) a2 b2]

theorem countOcc_append_split (pat : List Char) (d : Char) (hd : d ∉ pat) :
    ∀ (a b2 : List Char),
    countOcc (a ++ d :: b2) pat = countOcc a pat + countOcc (d :: b2) pat := by
  intro a b2
  induction a with
  | nil => simp [countOcc]
  | cons c a2 ih =>
    simp only [List.cons_append, countOcc, List.append_eq]
    have hsw : startsWithL (c :: (a2 ++ d :: b2)) pat = startsWithL (c :: a2) pat := by
      have := startsWithL_cross pat d hd (c :: a2) b2
      simpa [List.cons_append] using this
    simp only [hsw, ih, countOcc]
    omega

theorem countOcc_zero_of_notmem (h0 : Char) (pt : List Char) :
    ∀ (a : List Char), h0 ∉ a → countOcc a (h0 :: pt) = 0 := by
  intro a
  induction a with
  | nil => intro _; rfl
  | cons c t ih =>
    intro ha
    have hc : c ≠ h0 := fun he => ha (he ▸ List.mem_cons_self c t)
    simp [countOcc, startsWithL, hc, ih (fun hm => ha (List.mem_cons_of_mem c hm))]

theorem countOcc_append_left (h0 : Char) (pt : List Char) :
    ∀ (a x : List Char), h0 ∉ a →
    countOcc (a ++ x) (h0 :: pt) = countOcc x (h0 :: pt) := by
  intro a x
  induction a with
  | nil => intro _; rfl
  | cons c t ih =>
    intro ha
    have hc : c ≠ h0 := fun he => ha (he ▸ List.mem_cons_self c t)
    simp [countOcc, startsWithL, hc, List.cons_append,
      ih (fun hm => ha (List.mem_cons_of_mem c hm))]

theorem containsSub_false_of_countOcc (p0 : Char) (pt : List Char) :
    ∀ (s : List Char), countOcc s (p0 :: pt) = 0 → containsSub s (p0 :: pt) = false := by
  intro s
  induction s with
  | nil => intro _; rfl
  | cons c t ih =>
    intro h
    simp only [countOcc] at h
    cases hsw : startsWithL (c :: t) (p0 :: pt) with
    | true => rw [hsw] at h; simp at h
    | false =>
      rw [hsw] at h
      simp only [Bool.false_eq_true, if_false] at h
      simp [containsSub, hsw, ih (by omega)]

theorem countOcc_concat_zero (pat : List Char) :
    ∀ (l : List (List Char)), (∀ c ∈ l, countOcc c pat = 0) →
    (∀ c ∈ l, ∃ d t, c = d :: t ∧ d ∉ pat) →
    countOcc (concatL l) pat = 0 := by
  intro l
  induction l with
  | nil => intro _ _; rfl
  | cons c rest ih =>
    intro hz hh
    have hzc : countOcc c pat = 0 := hz c (List.mem_cons_self c rest)
    cases rest with
    | nil => simpa [concatL] using hzc
    | cons c2 rest2 =>
      rcases hh c2 (List.mem_cons_of_mem c (List.mem_cons_self c2 rest2)) with ⟨d, t, hct, hd⟩
      have hrest : countOcc (concatL (c2 :: rest2)) pat = 0 :=
        ih (fun x hx => hz x (List.mem_cons_of_mem c hx))
          (fun x hx => hh x (List.mem_cons_of_mem c hx))
      have hshape : concatL (c2 :: rest2) = d :: (t ++ concatL rest2) := by
        simp [concatL, hct]
      have hstep : concatL (c :: c2 :: rest2) = c ++ concatL (c2 :: rest2) := rfl
      rw [hstep, hshape, countOcc_append_split pat d hd c (t ++ concatL rest2), hzc,
        ← hshape, hrest]

theorem promptPre_toList :
    promptPre.toList = promptPreP1.toList ++ promptPreP2.toList := by
  simp [promptPre, String.toList, String.data_append]

theorem promptPre_no_brace : '\x7b' ∉ promptPre.toList := by
  rw [promptPre_toList]
  intro hm
  rcases List.mem_append.mp hm with h | h
  · exact absurd h (by decide)
  · exact absurd h (by decide)

theorem placeholderTok_eq : placeholderTok = '\x7b' :: "ideaDescription\x7d".toList := rfl

theorem EVALUATION_PROMPT_split : EVALUATION_PROMPT.toList
    = promptPre.toList ++ placeholderTok ++ promptPost.toList := by
  simp [EVALUATION_PROMPT, placeholderTok, String.toList, String.data_append]

theorem promptPost_chunks :
    promptPost.toList = concatL [promptPostP1.toList,
      promptPostP2.toList,
      promptPostP3.toList,
      promptPostP4.toList,
      promptPostP5.toList,
      promptPostP6.toList,
      promptPostP7.toList,
      promptPostP8.toList,
      promptPostP9.toList,
      promptPostP10.toList,
      promptPostP11.toList,
      promptPostP12.toList] := by
  simp [promptPost, concatL, String.toList, String.data_append]

theorem promptPost_count_ph : countOcc promptPost.toList placeholderTok = 0 := by
  rw [promptPost_chunks]
  apply countOcc_concat_zero
  · intro c hc
    simp only [List.mem_cons, List.not_mem_nil, or_false] at hc
    rcases hc with rfl | rfl | rfl | rfl | rfl | rfl | rfl | rfl | rfl | rfl | rfl | rfl <;> decide
  · intro c hc
    simp only [List.mem_cons, List.not_mem_nil, or_false] at hc
    rcases hc with rfl | rfl | rfl | rfl | rfl | rfl | rfl | rfl | rfl | rfl | rfl | rfl <;>
      exact ⟨'\n', _, rfl, by decide⟩

theorem promptPost_head : ∃ t, promptPost.toList = '\n' :: t := ⟨_, rfl⟩

theorem EVALUATION_PROMPT_split_cons : EVALUATION_PROMPT.toList
    = promptPre.toList ++ '\x7b' :: ("ideaDescription\x7d".toList ++ promptPost.toList) := by
  rw [EVALUATION_PROMPT_split, placeholderTok_eq]
  simp [List.cons_append, List.append_assoc]

theorem EVALUATION_PROMPT_chunks : EVALUATION_PROMPT.toList
    = concatL [promptPreP1.toList,
      promptPreP2.toList,
      "\x7bideaDescription\x7d".toList,
      promptPostP1.toList,
      promptPostP2.toList,
      promptPostP3.toList,
      promptPostP4.toList,
      promptPostP5.toList,
      promptPostP6.toList,
      promptPostP7.toList,
      promptPostP8.toList,
      promptPostP9.toList,
      promptPostP10.toList,
      promptPostP11.toList,
      promptPostP12.toList] := by
  simp [EVALUATION_PROMPT, promptPre, promptPost, concatL, String.toList,
    String.data_append]

/-- C4 (amended): for every non-empty idea description containing no
ECMAScript replacement pattern (a dollar followed by a dollar, ampersand,
backtick or quote), the user message is exactly the template text around the
idea text inserted verbatim, it contains the idea text as a substring, and
the only occurrences of the placeholder token left in the message are those
the idea text itself carries. -/
theorem C4_theorem : ∀ (idea : List Char), idea ≠ [] → noDollarSpecial idea = true →
    userMessage idea = promptPre.toList ++ idea ++ promptPost.toList
    ∧ containsSub (userMessage idea) idea = true
    ∧ countOcc (userMessage idea) placeholderTok = countOcc idea placeholderTok := by
  intro idea hne hnd
  have hfound := splitFirst_found promptPre.toList "ideaDescription\x7d".toList
    promptPost.toList promptPre_no_brace
  have hmsg : userMessage idea = promptPre.toList ++ idea ++ promptPost.toList := by
    show jsReplaceFirst EVALUATION_PROMPT.toList placeholderTok idea
      = promptPre.toList ++ idea ++ promptPost.toList
    simp only [jsReplaceFirst, placeholderTok_eq, EVALUATION_PROMPT_split_cons, hfound]
    rw [getSubstitution_id idea _ _ _ hnd]
  refine ⟨hmsg, ?_, ?_⟩
  · rw [hmsg, List.append_assoc]
    exact containsSub_append_middle _ _ _
  · rw [hmsg, List.append_assoc, placeholderTok_eq,
      countOcc_append_left '\x7b' _ promptPre.toList _ promptPre_no_brace]
    obtain ⟨t, ht⟩ := promptPost_head
    rw [ht, countOcc_append_split _ '\n' (by decide) idea t, ← ht]
    have hpc := promptPost_count_ph
    rw [placeholderTok_eq] at hpc
    rw [hpc]
    omega

/-- C4 witness: a concrete idea description is embedded verbatim between the
template halves, appears as a substring, and leaves no placeholder behind. -/
theorem C4_witness :
    userMessage "An e-bike battery swap network.".toList
      = promptPre.toList ++ "An e-bike battery swap network.".toList ++ promptPost.toList
    ∧ containsSub (userMessage "An e-bike battery swap network.".toList)
        "An e-bike battery swap network.".toList = true
    ∧ countOcc (userMessage "An e-bike battery swap network.".toList) placeholderTok
      = countOcc "An e-bike battery swap network.".toList placeholderTok :=
  C4_theorem "An e-bike battery swap network.".toList (by decide) (by decide)

/-- C4 counterexample: on the input `$&` the ECMAScript replacement
semantics of `String.prototype.replace` re-inserts the matched placeholder,
so the user message equals the unmodified template: it does not contain the
input text, and it still contains the placeholder token. -/
theorem C4_counterexample :
    userMessage "$&".toList = EVALUATION_PROMPT.toList
    ∧ containsSub (userMessage "$&".toList) "$&".toList = false
    ∧ countOcc (userMessage "$&".toList) placeholderTok = 1 := by
  have hfound := splitFirst_found promptPre.toList "ideaDescription\x7d".toList
    promptPost.toList promptPre_no_brace
  have h1 : userMessage "$&".toList = EVALUATION_PROMPT.toList := by
    show jsReplaceFirst EVALUATION_PROMPT.toList placeholderTok "$&".toList
      = EVALUATION_PROMPT.toList
    simp only [jsReplaceFirst, placeholderTok_eq, EVALUATION_PROMPT_split_cons, hfound]
    have hg : getSubstitution "$&".toList ('\x7b' :: "ideaDescription\x7d".toList)
        promptPre.toList (promptPost.toList)
        = ('\x7b' :: "ideaDescription\x7d".toList) ++ [] := rfl
    rw [hg]
    simp [List.append_assoc]
  refine ⟨h1, ?_, ?_⟩
  · rw [h1]
    apply containsSub_false_of_countOcc '$' "&".toList
    rw [EVALUATION_PROMPT_chunks]
    apply countOcc_concat_zero
    · intro c hc
      simp only [List.mem_cons, List.not_mem_nil, or_false] at hc
      rcases hc with rfl | rfl | rfl | rfl | rfl | rfl | rfl | rfl | rfl | rfl | rfl | rfl | rfl | rfl | rfl <;> decide
    · intro c hc
      simp only [List.mem_cons, List.not_mem_nil, or_false] at hc
      rcases hc with rfl | rfl | rfl | rfl | rfl | rfl | rfl | rfl | rfl | rfl | rfl | rfl | rfl | rfl | rfl <;> exact ⟨_, _, rfl, by decide⟩
  · rw [h1, EVALUATION_PROMPT_split_cons, placeholderTok_eq,
      countOcc_append_left '\x7b' _ promptPre.toList _ promptPre_no_brace]
    obtain ⟨t, ht⟩ := promptPost_head
    have hsh : '\x7b' :: ("ideaDescription\x7d".toList ++ promptPost.toList)
        = ('\x7b' :: "ideaDescription\x7d".toList) ++ '\n' :: t := by
      rw [← ht]
      simp [List.cons_append]
    rw [hsh, countOcc_append_split _ '\n' (by decide) _ t, ← ht]
    have hpc := promptPost_count_ph
    rw [placeholderTok_eq] at hpc
    rw [hpc]
    decide


/-! ## Success characterization of the fenced regex -/

theorem starM_ws_commit {α : Type} (gs ge : Option (List Char)) (k : MState → Option α)
    (v : α) (c : Char) (t : List Char) (hc : jsWs c = false)
    (hk : k ⟨c :: t, gs, ge⟩ = some v) :
    ∀ run, (∀ x ∈ run, jsWs x = true) → starM jsWs gs ge k (run ++ c :: t) = some v := by
  intro run
  induction run with
  | nil => intro _; simp [starM, hc, hk]
  | cons x run2 ih =>
    intro hrun
    have hx : jsWs x = true := hrun x (List.mem_cons_self x run2)
    have h2 := ih (fun y hy => hrun y (List.mem_cons_of_mem x hy))
    simp [starM, hx, h2, oor]

theorem starM_true_find {α : Type} (gs ge : Option (List Char)) (k : MState → Option α)
    (v : α) (x : Char) (u : List Char)
    (hfail : ∀ st1, st1.rem <:+ u → k st1 = none)
    (hsucc : k ⟨x :: u, gs, ge⟩ = some v) :
    ∀ a, starM (fun _ => true) gs ge k (a ++ x :: u) = some v := by
  intro a
  induction a with
  | nil =>
    have hnone : starM (fun _ => true) gs ge k u = none :=
      starM_none _ gs ge k u hfail
    simp [starM, hnone, oor, hsucc]
  | cons y a2 ih => simp [starM, ih, oor]

theorem suffix_cons_ne {α : Type} (x c : α) (l s : List α) (hne : c ≠ x) :
    (c :: s) <:+ (x :: l) → (c :: s) <:+ l := by
  intro h
  rcases List.suffix_cons_iff.mp h with h1 | h1
  · exact absurd (List.head_eq_of_cons_eq h1) hne
  · exact h1

theorem suffix_append_cases {α : Type} (s b : List α) :
    ∀ (a : List α), s <:+ a ++ b →
    s <:+ b ∨ ∃ a2, a2 <:+ a ∧ a2 ≠ [] ∧ s = a2 ++ b := by
  intro a
  induction a with
  | nil => intro h; exact .inl (by simpa using h)
  | cons x a2 ih =>
    intro h
    rcases List.suffix_cons_iff.mp (by simpa [List.cons_append] using h) with h1 | h1
    · exact .inr ⟨x :: a2, List.suffix_rfl, by simp, by simp [h1, List.cons_append]⟩
    · rcases ih h1 with h2 | ⟨a3, h3, h4, h5⟩
      · exact .inl h2
      · exact .inr ⟨a3, h3.trans ⟨[x], rfl⟩, h4, h5⟩

theorem reqChar_tick_ticks3 : reqChar '\x60' ticks3 = true := rfl

theorem fencedClose_fail {α : Type} (ws2 post : List Char) (k : MState → Option α)
    (hws2 : ∀ c ∈ ws2, jsWs c = true) (hpost : '\x60' ∉ post) :
    ∀ st1, st1.rem <:+ (ws2 ++ ('\x60' :: '\x60' :: '\x60' :: post)) →
    mRE fencedRest2 st1 k = none := by
  intro st1 hs
  simp only [fencedRest2, mRE]
  cases hrem : st1.rem with
  | nil => rfl
  | cons c t =>
    by_cases hc : c = '\x7d'
    · simp only [hc, if_pos rfl]
      rw [hrem] at hs
      subst hc
      have htick : '\x60' ∉ t := by
        rcases suffix_append_cases _ _ ws2 hs with h1 | ⟨a2, h2, h3, h4⟩
        · have h2 := suffix_cons_ne '\x60' '\x7d' _ _ (by decide) h1
          have h3 := suffix_cons_ne '\x60' '\x7d' _ _ (by decide) h2
          have h4 := suffix_cons_ne '\x60' '\x7d' _ _ (by decide) h3
          intro hm
          exact hpost (h4.subset (List.mem_cons_of_mem _ hm))
        · cases a2 with
          | nil => exact absurd rfl h3
          | cons b a3 =>
            have hb : b = '\x7d' := (List.head_eq_of_cons_eq h4.symm)
            have hmem : '\x7d' ∈ ws2 := h2.subset (hb ▸ List.mem_cons_self b a3)
            have := hws2 '\x7d' hmem
            simp [jsWs] at this
      apply starM_none
      intro s2 hs2
      exact mRE_reqChar '\x60' ticks3 s2 k reqChar_tick_ticks3
        (fun hm => htick (hs2.subset hm))
    · simp [hc]

theorem ticks3_eq : ticks3 = .seq (.lit '\x60') (.seq (.lit '\x60') (.seq (.lit '\x60') .eps)) := rfl

theorem fencedTail_commit {α : Type} (gs0 ge0 : Option (List Char))
    (ws1 body ws2 post : List Char) (k : MState → Option α) (v : α)
    (hws1 : ∀ c ∈ ws1, jsWs c = true) (hws2 : ∀ c ∈ ws2, jsWs c = true)
    (hpost : '\x60' ∉ post)
    (hk : k ⟨post,
        some ('\x7b' :: (body ++ '\x7d' :: (ws2 ++ ('\x60' :: '\x60' :: '\x60' :: post)))),
        some (ws2 ++ ('\x60' :: '\x60' :: '\x60' :: post))⟩ = some v) :
    mRE fencedTail
      ⟨ws1 ++ '\x7b' :: (body ++ '\x7d' :: (ws2 ++ ('\x60' :: '\x60' :: '\x60' :: post))),
        gs0, ge0⟩ k = some v := by
  have htick : mRE ticks3
      ⟨'\x60' :: '\x60' :: '\x60' :: post,
        some ('\x7b' :: (body ++ '\x7d' :: (ws2 ++ ('\x60' :: '\x60' :: '\x60' :: post)))),
        some (ws2 ++ ('\x60' :: '\x60' :: '\x60' :: post))⟩ k = some v := by
    rw [ticks3_eq]
    simp [mRE, hk]
  have hsucc : mRE fencedRest2
      ⟨'\x7d' :: (ws2 ++ ('\x60' :: '\x60' :: '\x60' :: post)),
        some ('\x7b' :: (body ++ '\x7d' :: (ws2 ++ ('\x60' :: '\x60' :: '\x60' :: post)))),
        ge0⟩ k = some v := by
    simp only [fencedRest2, mRE]
    exact starM_ws_commit _ _ _ v '\x60' ('\x60' :: '\x60' :: post) (by decide) htick ws2 hws2
  have hstep : mRE fencedRest1
      ⟨'\x7b' :: (body ++ '\x7d' :: (ws2 ++ ('\x60' :: '\x60' :: '\x60' :: post))),
        gs0, ge0⟩ k = some v := by
    simp only [fencedRest1, mRE]
    exact starM_true_find _ _ _ v '\x7d'
      (ws2 ++ ('\x60' :: '\x60' :: '\x60' :: post))
      (fencedClose_fail ws2 post k hws2 hpost) hsucc body
  simp only [fencedTail, mRE]
  exact starM_ws_commit gs0 ge0 _ v '\x7b' _ (by decide) hstep ws1 hws1

theorem take_append_self {α : Type} (a b : List α) : (a ++ b).take a.length = a := by
  have h := take_append_len a b 0
  simp only [Nat.add_zero, List.take_zero, List.append_nil] at h
  exact h

theorem capture_take (body T2 : List Char) :
    ('\x7b' :: (body ++ '\x7d' :: T2)).take
        (('\x7b' :: (body ++ '\x7d' :: T2)).length - T2.length)
      = '\x7b' :: (body ++ ['\x7d']) := by
  have hlen : ('\x7b' :: (body ++ '\x7d' :: T2)).length - T2.length
      = (body.length + 1) + 1 := by
    simp [List.length_append]
    omega
  rw [hlen, List.take_succ_cons]
  have h2 := take_append_len body ('\x7d' :: T2) 1
  rw [h2]
  simp [List.take]

theorem json_lits_eq : litStr "json".toList
    = .seq (.lit 'j') (.seq (.lit 's') (.seq (.lit 'o') (.seq (.lit 'n') .eps))) := rfl

theorem json_branch_fail {α : Type} (k : MState → Option α) (gs ge : Option (List Char))
    (ws1 rest2 : List Char) (hws1 : ∀ c ∈ ws1, jsWs c = true) :
    mRE (litStr "json".toList) ⟨ws1 ++ '\x7b' :: rest2, gs, ge⟩ k = none := by
  cases ws1 with
  | nil => simp [json_lits_eq, mRE]
  | cons w t =>
    have hw : jsWs w = true := hws1 w (List.mem_cons_self w t)
    have hwj : w ≠ 'j' := by
      intro he
      rw [he] at hw
      exact absurd hw (by decide)
    simp [json_lits_eq, mRE, hwj]

theorem matchAt_fenced_json (ws1 body ws2 post : List Char)
    (hws1 : ∀ c ∈ ws1, jsWs c = true) (hws2 : ∀ c ∈ ws2, jsWs c = true)
    (hpost : '\x60' ∉ post) :
    ∃ w, matchAt fencedRE ('\x60' :: '\x60' :: '\x60' :: 'j' :: 's' :: 'o' :: 'n' :: (ws1 ++ '\x7b' :: (body ++ '\x7d' :: (ws2 ++ ('\x60' :: '\x60' :: '\x60' :: post))))) = some (w, some ('\x7b' :: (body ++ ['\x7d']))) := by
  refine ⟨('\x60' :: '\x60' :: '\x60' :: 'j' :: 's' :: 'o' :: 'n' :: (ws1 ++ '\x7b' :: (body ++ '\x7d' :: (ws2 ++ ('\x60' :: '\x60' :: '\x60' :: post))))).take (('\x60' :: '\x60' :: '\x60' :: 'j' :: 's' :: 'o' :: 'n' :: (ws1 ++ '\x7b' :: (body ++ '\x7d' :: (ws2 ++ ('\x60' :: '\x60' :: '\x60' :: post))))).length - post.length), ?_⟩
  show oor
      (mRE fencedTail ⟨ws1 ++ '\x7b' :: (body ++ '\x7d' :: (ws2 ++ ('\x60' :: '\x60' :: '\x60' :: post))), none, none⟩
        (fun st : MState =>
      some (('\x60' :: '\x60' :: '\x60' :: 'j' :: 's' :: 'o' :: 'n' :: (ws1 ++ '\x7b' :: (body ++ '\x7d' :: (ws2 ++ ('\x60' :: '\x60' :: '\x60' :: post))))).take (('\x60' :: '\x60' :: '\x60' :: 'j' :: 's' :: 'o' :: 'n' :: (ws1 ++ '\x7b' :: (body ++ '\x7d' :: (ws2 ++ ('\x60' :: '\x60' :: '\x60' :: post))))).length - st.rem.length), capOf st)))
      (mRE fencedTail ⟨'j' :: 's' :: 'o' :: 'n' :: (ws1 ++ '\x7b' :: (body ++ '\x7d' :: (ws2 ++ ('\x60' :: '\x60' :: '\x60' :: post)))), none, none⟩
        (fun st : MState =>
      some (('\x60' :: '\x60' :: '\x60' :: 'j' :: 's' :: 'o' :: 'n' :: (ws1 ++ '\x7b' :: (body ++ '\x7d' :: (ws2 ++ ('\x60' :: '\x60' :: '\x60' :: post))))).take (('\x60' :: '\x60' :: '\x60' :: 'j' :: 's' :: 'o' :: 'n' :: (ws1 ++ '\x7b' :: (body ++ '\x7d' :: (ws2 ++ ('\x60' :: '\x60' :: '\x60' :: post))))).length - st.rem.length), capOf st)))
    = some (('\x60' :: '\x60' :: '\x60' :: 'j' :: 's' :: 'o' :: 'n' :: (ws1 ++ '\x7b' :: (body ++ '\x7d' :: (ws2 ++ ('\x60' :: '\x60' :: '\x60' :: post))))).take (('\x60' :: '\x60' :: '\x60' :: 'j' :: 's' :: 'o' :: 'n' :: (ws1 ++ '\x7b' :: (body ++ '\x7d' :: (ws2 ++ ('\x60' :: '\x60' :: '\x60' :: post))))).length - post.length), some ('\x7b' :: (body ++ ['\x7d'])))
  have hk : ((fun st : MState =>
      some (('\x60' :: '\x60' :: '\x60' :: 'j' :: 's' :: 'o' :: 'n' :: (ws1 ++ '\x7b' :: (body ++ '\x7d' :: (ws2 ++ ('\x60' :: '\x60' :: '\x60' :: post))))).take (('\x60' :: '\x60' :: '\x60' :: 'j' :: 's' :: 'o' :: 'n' :: (ws1 ++ '\x7b' :: (body ++ '\x7d' :: (ws2 ++ ('\x60' :: '\x60' :: '\x60' :: post))))).length - st.rem.length), capOf st)))
        ⟨post, some ('\x7b' :: (body ++ '\x7d' :: (ws2 ++ ('\x60' :: '\x60' :: '\x60' :: post)))), some (ws2 ++ ('\x60' :: '\x60' :: '\x60' :: post))⟩
      = some ((('\x60' :: '\x60' :: '\x60' :: 'j' :: 's' :: 'o' :: 'n' :: (ws1 ++ '\x7b' :: (body ++ '\x7d' :: (ws2 ++ ('\x60' :: '\x60' :: '\x60' :: post))))).take (('\x60' :: '\x60' :: '\x60' :: 'j' :: 's' :: 'o' :: 'n' :: (ws1 ++ '\x7b' :: (body ++ '\x7d' :: (ws2 ++ ('\x60' :: '\x60' :: '\x60' :: post))))).length - post.length)), some ('\x7b' :: (body ++ ['\x7d']))) := by
    simp only [capOf]
    rw [capture_take]
  rw [fencedTail_commit none none ws1 body ws2 post
    (fun st : MState =>
      some (('\x60' :: '\x60' :: '\x60' :: 'j' :: 's' :: 'o' :: 'n' :: (ws1 ++ '\x7b' :: (body ++ '\x7d' :: (ws2 ++ ('\x60' :: '\x60' :: '\x60' :: post))))).take (('\x60' :: '\x60' :: '\x60' :: 'j' :: 's' :: 'o' :: 'n' :: (ws1 ++ '\x7b' :: (body ++ '\x7d' :: (ws2 ++ ('\x60' :: '\x60' :: '\x60' :: post))))).length - st.rem.length), capOf st))
    ((('\x60' :: '\x60' :: '\x60' :: 'j' :: 's' :: 'o' :: 'n' :: (ws1 ++ '\x7b' :: (body ++ '\x7d' :: (ws2 ++ ('\x60' :: '\x60' :: '\x60' :: post))))).take (('\x60' :: '\x60' :: '\x60' :: 'j' :: 's' :: 'o' :: 'n' :: (ws1 ++ '\x7b' :: (body ++ '\x7d' :: (ws2 ++ ('\x60' :: '\x60' :: '\x60' :: post))))).length - post.length)), some ('\x7b' :: (body ++ ['\x7d'])))
    hws1 hws2 hpost hk]
  rfl

theorem matchAt_fenced_untagged (ws1 body ws2 post : List Char)
    (hws1 : ∀ c ∈ ws1, jsWs c = true) (hws2 : ∀ c ∈ ws2, jsWs c = true)
    (hpost : '\x60' ∉ post) :
    ∃ w, matchAt fencedRE ('\x60' :: '\x60' :: '\x60' :: (ws1 ++ '\x7b' :: (body ++ '\x7d' :: (ws2 ++ ('\x60' :: '\x60' :: '\x60' :: post))))) = some (w, some ('\x7b' :: (body ++ ['\x7d']))) := by
  refine ⟨('\x60' :: '\x60' :: '\x60' :: (ws1 ++ '\x7b' :: (body ++ '\x7d' :: (ws2 ++ ('\x60' :: '\x60' :: '\x60' :: post))))).take (('\x60' :: '\x60' :: '\x60' :: (ws1 ++ '\x7b' :: (body ++ '\x7d' :: (ws2 ++ ('\x60' :: '\x60' :: '\x60' :: post))))).length - post.length), ?_⟩
  show oor
      (mRE (litStr "json".toList) ⟨ws1 ++ '\x7b' :: (body ++ '\x7d' :: (ws2 ++ ('\x60' :: '\x60' :: '\x60' :: post))), none, none⟩
        (fun st2 : MState => mRE fencedTail st2
          (fun st : MState =>
      some (('\x60' :: '\x60' :: '\x60' :: (ws1 ++ '\x7b' :: (body ++ '\x7d' :: (ws2 ++ ('\x60' :: '\x60' :: '\x60' :: post))))).take (('\x60' :: '\x60' :: '\x60' :: (ws1 ++ '\x7b' :: (body ++ '\x7d' :: (ws2 ++ ('\x60' :: '\x60' :: '\x60' :: post))))).length - st.rem.length), capOf st))))
      (mRE fencedTail ⟨ws1 ++ '\x7b' :: (body ++ '\x7d' :: (ws2 ++ ('\x60' :: '\x60' :: '\x60' :: post))), none, none⟩
        (fun st : MState =>
      some (('\x60' :: '\x60' :: '\x60' :: (ws1 ++ '\x7b' :: (body ++ '\x7d' :: (ws2 ++ ('\x60' :: '\x60' :: '\x60' :: post))))).take (('\x60' :: '\x60' :: '\x60' :: (ws1 ++ '\x7b' :: (body ++ '\x7d' :: (ws2 ++ ('\x60' :: '\x60' :: '\x60' :: post))))).length - st.rem.length), capOf st)))
    = some (('\x60' :: '\x60' :: '\x60' :: (ws1 ++ '\x7b' :: (body ++ '\x7d' :: (ws2 ++ ('\x60' :: '\x60' :: '\x60' :: post))))).take (('\x60' :: '\x60' :: '\x60' :: (ws1 ++ '\x7b' :: (body ++ '\x7d' :: (ws2 ++ ('\x60' :: '\x60' :: '\x60' :: post))))).length - post.length), some ('\x7b' :: (body ++ ['\x7d'])))
  rw [json_branch_fail _ _ _ ws1 _ hws1, oor_none]
  have hk : ((fun st : MState =>
      some (('\x60' :: '\x60' :: '\x60' :: (ws1 ++ '\x7b' :: (body ++ '\x7d' :: (ws2 ++ ('\x60' :: '\x60' :: '\x60' :: post))))).take (('\x60' :: '\x60' :: '\x60' :: (ws1 ++ '\x7b' :: (body ++ '\x7d' :: (ws2 ++ ('\x60' :: '\x60' :: '\x60' :: post))))).length - st.rem.length), capOf st)))
        ⟨post, some ('\x7b' :: (body ++ '\x7d' :: (ws2 ++ ('\x60' :: '\x60' :: '\x60' :: post)))), some (ws2 ++ ('\x60' :: '\x60' :: '\x60' :: post))⟩
      = some ((('\x60' :: '\x60' :: '\x60' :: (ws1 ++ '\x7b' :: (body ++ '\x7d' :: (ws2 ++ ('\x60' :: '\x60' :: '\x60' :: post))))).take (('\x60' :: '\x60' :: '\x60' :: (ws1 ++ '\x7b' :: (body ++ '\x7d' :: (ws2 ++ ('\x60' :: '\x60' :: '\x60' :: post))))).length - post.length)), some ('\x7b' :: (body ++ ['\x7d']))) := by
    simp only [capOf]
    rw [capture_take]
  rw [fencedTail_commit none none ws1 body ws2 post
    (fun st : MState =>
      some (('\x60' :: '\x60' :: '\x60' :: (ws1 ++ '\x7b' :: (body ++ '\x7d' :: (ws2 ++ ('\x60' :: '\x60' :: '\x60' :: post))))).take (('\x60' :: '\x60' :: '\x60' :: (ws1 ++ '\x7b' :: (body ++ '\x7d' :: (ws2 ++ ('\x60' :: '\x60' :: '\x60' :: post))))).length - st.rem.length), capOf st))
    ((('\x60' :: '\x60' :: '\x60' :: (ws1 ++ '\x7b' :: (body ++ '\x7d' :: (ws2 ++ ('\x60' :: '\x60' :: '\x60' :: post))))).take (('\x60' :: '\x60' :: '\x60' :: (ws1 ++ '\x7b' :: (body ++ '\x7d' :: (ws2 ++ ('\x60' :: '\x60' :: '\x60' :: post))))).length - post.length)), some ('\x7b' :: (body ++ ['\x7d'])))
    hws1 hws2 hpost hk]

theorem matchAt_fenced_ne (c : Char) (l : List Char) (hc : c ≠ '\x60') :
    matchAt fencedRE (c :: l) = none := by
  simp [matchAt, fencedRE, ticks3_eq, mRE, hc]

theorem jsMatch_fenced_skip (pre : List Char) (hpre : '\x60' ∉ pre) :
    ∀ rest, jsMatch fencedRE (pre ++ rest) = jsMatch fencedRE rest := by
  induction pre with
  | nil => intro rest; rfl
  | cons c t ih =>
    intro rest
    have hc : c ≠ '\x60' := fun he => hpre (he ▸ List.mem_cons_self c t)
    simp only [List.cons_append, jsMatch, matchAt_fenced_ne c _ hc]
    exact ih (fun hm => hpre (List.mem_cons_of_mem c hm)) rest

/-! ## Claim C2: a single tagged fenced block -/

/-- C2: a completion holding one backtick-fenced `json`-tagged block whose
content is a valid JSON object (here: optional surrounding whitespace inside
the fence, and backtick-free prose before and after the block) makes the
Extractor return exactly the object parsed from the block, with no field
validation, range checking, or recomputation — the parsed value `v` is
whatever the block contains. -/
theorem C2_theorem : ∀ (pre ws1 body ws2 post : List Char) (v : Json),
    '\x60' ∉ pre → '\x60' ∉ post →
    (∀ c ∈ ws1, jsWs c = true) → (∀ c ∈ ws2, jsWs c = true) →
    jsonParse ('\x7b' :: (body ++ ['\x7d'])) = some v →
    extractJsonContent (pre ++ ('\x60' :: '\x60' :: '\x60' :: 'j' :: 's' :: 'o' :: 'n' :: (ws1 ++ '\x7b' :: (body ++ '\x7d' :: (ws2 ++ ('\x60' :: '\x60' :: '\x60' :: post)))))) = '\x7b' :: (body ++ ['\x7d'])
    ∧ extractEvaluation (pre ++ ('\x60' :: '\x60' :: '\x60' :: 'j' :: 's' :: 'o' :: 'n' :: (ws1 ++ '\x7b' :: (body ++ '\x7d' :: (ws2 ++ ('\x60' :: '\x60' :: '\x60' :: post)))))) = .ok v := by
  intro pre ws1 body ws2 post v hpre hpost hws1 hws2 hv
  obtain ⟨w, hw⟩ := matchAt_fenced_json ws1 body ws2 post hws1 hws2 hpost
  have hjs : jsMatch fencedRE (pre ++ ('\x60' :: '\x60' :: '\x60' :: 'j' :: 's' :: 'o' :: 'n' :: (ws1 ++ '\x7b' :: (body ++ '\x7d' :: (ws2 ++ ('\x60' :: '\x60' :: '\x60' :: post))))))
      = some (w, some ('\x7b' :: (body ++ ['\x7d']))) := by
    rw [jsMatch_fenced_skip pre hpre]
    simp [jsMatch, hw]
  have hext : extractJsonContent (pre ++ ('\x60' :: '\x60' :: '\x60' :: 'j' :: 's' :: 'o' :: 'n' :: (ws1 ++ '\x7b' :: (body ++ '\x7d' :: (ws2 ++ ('\x60' :: '\x60' :: '\x60' :: post)))))) = '\x7b' :: (body ++ ['\x7d']) := by
    simp [extractJsonContent, hjs]
  refine ⟨hext, ?_⟩
  simp [extractEvaluation, hext, hv]

/-- C2 witness: a concrete completion with prose around one tagged fenced
block extracts and parses exactly the embedded object. -/
theorem C2_witness :
    extractJsonContent ("Here is the result:\n".toList ++
        ('\x60' :: '\x60' :: '\x60' :: 'j' :: 's' :: 'o' :: 'n' ::
          ("\n".toList ++ '\x7b' :: ("\"a\": 1".toList ++ '\x7d' ::
            ("\n".toList ++ ('\x60' :: '\x60' :: '\x60' :: " Done.".toList))))))
      = '\x7b' :: ("\"a\": 1".toList ++ ['\x7d'])
    ∧ extractEvaluation ("Here is the result:\n".toList ++
        ('\x60' :: '\x60' :: '\x60' :: 'j' :: 's' :: 'o' :: 'n' ::
          ("\n".toList ++ '\x7b' :: ("\"a\": 1".toList ++ '\x7d' ::
            ("\n".toList ++ ('\x60' :: '\x60' :: '\x60' :: " Done.".toList))))))
      = .ok (.obj [("a".toList, .num 1 0)]) :=
  C2_theorem "Here is the result:\n".toList "\n".toList "\"a\": 1".toList
    "\n".toList " Done.".toList (.obj [("a".toList, .num 1 0)])
    (by decide) (by decide) (by decide) (by decide) rfl

/-! ## Digit and numeral lemmas (towards the C5 round trip) -/

theorem digitChar_isDigit (d : Nat) (hd : d < 10) : (digitChar d).isDigit = true := by
  interval_cases d <;> decide

theorem digVal_digitChar (d : Nat) (hd : d < 10) : digVal (digitChar d) = d := by
  interval_cases d <;> decide

theorem digitChar_ne_zero (d : Nat) (hd : d < 10) (h0 : d ≠ 0) : digitChar d ≠ '0' := by
  interval_cases d <;> simp_all <;> decide

theorem digitChar_ne_minus (d : Nat) (hd : d < 10) : digitChar d ≠ '-' := by
  interval_cases d <;> decide

theorem isDigit_exists_digitChar (c : Char) (h : c.isDigit = true) :
    ∃ d, d < 10 ∧ c = digitChar d := by
  have hb : 48 ≤ c.toNat ∧ c.toNat ≤ 57 := by
    simp [Char.isDigit] at h
    exact ⟨h.1, h.2⟩
  refine ⟨c.toNat - 48, by omega, ?_⟩
  have : 48 + (c.toNat - 48) = c.toNat := by omega
  rw [digitChar, this, Char.ofNat_toNat]

theorem natDigitsAux_fuel (n : Nat) : ∀ f f', n < f → n < f' →
    natDigitsAux f n = natDigitsAux f' n := by
  induction n using Nat.strong_induction_on with
  | _ n ih =>
    intro f f' hf hf'
    obtain ⟨f0, rfl⟩ : ∃ f0, f = f0 + 1 := ⟨f - 1, by omega⟩
    obtain ⟨f1, rfl⟩ : ∃ f1, f' = f1 + 1 := ⟨f' - 1, by omega⟩
    simp only [natDigitsAux]
    by_cases h10 : n < 10
    · simp [h10]
    · simp only [h10, if_false]
      rw [ih (n / 10) (by omega) f0 f1 (by omega) (by omega)]

theorem natDigitsAux_succ (f n : Nat) : natDigitsAux (f + 1) n =
    if n < 10 then [digitChar n] else natDigitsAux f (n / 10) ++ [digitChar (n % 10)] := rfl

theorem natDigits_rec (n : Nat) : natDigits n =
    if n < 10 then [digitChar n] else natDigits (n / 10) ++ [digitChar (n % 10)] := by
  show natDigitsAux (n + 1) n = _
  rw [natDigitsAux_succ]
  by_cases h10 : n < 10
  · simp [h10]
  · simp only [h10, if_false]
    rw [natDigitsAux_fuel (n / 10) n (n / 10 + 1) (by omega) (by omega)]
    rfl

theorem natDigits_all_digits (n : Nat) : ∀ c ∈ natDigits n, c.isDigit = true := by
  induction n using Nat.strong_induction_on with
  | _ n ih =>
    rw [natDigits_rec]
    by_cases h10 : n < 10
    · simp only [h10, if_true, List.mem_singleton]
      rintro c rfl
      exact digitChar_isDigit n h10
    · simp only [h10, if_false, List.mem_append, List.mem_singleton]
      rintro c (hc | rfl)
      · exact ih (n / 10) (by omega) c hc
      · exact digitChar_isDigit (n % 10) (by omega)

theorem digitsVal_foldl (l : List Char) : ∀ a : Nat,
    l.foldl (fun a c => a * 10 + digVal c) a = a * 10 ^ l.length + digitsVal l := by
  induction l with
  | nil => intro a; simp [digitsVal]
  | cons c t ih =>
    intro a
    have h1 : digitsVal (c :: t) = digVal c * 10 ^ t.length + digitsVal t := by
      show (c :: t).foldl (fun a c => a * 10 + digVal c) 0 = _
      rw [List.foldl_cons, ih (0 * 10 + digVal c)]
      ring
    rw [List.foldl_cons, ih (a * 10 + digVal c), h1]
    simp [List.length_cons]
    ring

theorem digitsVal_append (a b : List Char) :
    digitsVal (a ++ b) = digitsVal a * 10 ^ b.length + digitsVal b := by
  show (a ++ b).foldl (fun a c => a * 10 + digVal c) 0 = _
  rw [List.foldl_append, digitsVal_foldl b (a.foldl (fun a c => a * 10 + digVal c) 0)]
  rfl

theorem digitsVal_natDigits (n : Nat) : digitsVal (natDigits n) = n := by
  induction n using Nat.strong_induction_on with
  | _ n ih =>
    rw [natDigits_rec]
    by_cases h10 : n < 10
    · simp only [h10, if_true]
      have h1 : digitsVal [digitChar n] = 0 * 10 + digVal (digitChar n) := rfl
      rw [h1, digVal_digitChar n h10]
      omega
    · simp only [h10, if_false]
      rw [digitsVal_append, ih (n / 10) (by omega)]
      have h1 : digitsVal [digitChar (n % 10)] = 0 * 10 + digVal (digitChar (n % 10)) := rfl
      rw [h1, digVal_digitChar (n % 10) (by omega)]
      simp only [List.length_singleton]
      omega

theorem natDigits_cons (n : Nat) : ∃ d t, natDigits n = digitChar d :: t ∧ d < 10 ∧
    (n = 0 → d = 0 ∧ t = []) ∧ (1 ≤ n → d ≠ 0) := by
  induction n using Nat.strong_induction_on with
  | _ n ih =>
    rw [natDigits_rec]
    by_cases h10 : n < 10
    · exact ⟨n, [], by simp [h10], h10, fun h => ⟨h, rfl⟩, fun h1 h0 => by omega⟩
    · obtain ⟨d, t, hds, hd10, _, hne⟩ := ih (n / 10) (by omega)
      refine ⟨d, t ++ [digitChar (n % 10)], ?_, hd10, by omega, fun _ => hne (by omega)⟩
      simp [h10, hds]

theorem natDigits_length_pos (n : Nat) : 1 ≤ (natDigits n).length := by
  obtain ⟨d, t, hds, -, -, -⟩ := natDigits_cons n
  rw [hds]
  simp

theorem numToChars_e0 (n : Nat) : numToChars (n : Int) 0 = natDigits n := by
  have hlen := natDigits_length_pos n
  simp only [numToChars, Int.natAbs_ofNat]
  have h0 : ¬((n : Int) < 0) := by omega
  have hmax : max (natDigits n).length (0 + 1) = (natDigits n).length := by omega
  simp only [h0, if_false, hmax]
  simp

theorem numToChars_small (n e : Nat) (he : 1 ≤ e) (hlen : (natDigits n).length ≤ e) :
    numToChars (n : Int) e =
      '0' :: '.' :: (List.replicate (e - (natDigits n).length) '0' ++ natDigits n) := by
  simp only [numToChars, Int.natAbs_ofNat]
  have h0 : ¬((n : Int) < 0) := by omega
  have hmax : max (natDigits n).length (e + 1) = e + 1 := by omega
  have he0 : e ≠ 0 := by omega
  simp only [h0, if_false, hmax, he0]
  have hrep : e + 1 - (natDigits n).length = (e - (natDigits n).length) + 1 := by omega
  rw [hrep, List.replicate_succ]
  have htake : e + 1 - e = 1 := by omega
  rw [htake]
  simp

theorem numToChars_big (n e : Nat) (he : 1 ≤ e) (hlen : e < (natDigits n).length) :
    numToChars (n : Int) e =
      (natDigits n).take ((natDigits n).length - e) ++
        '.' :: (natDigits n).drop ((natDigits n).length - e) := by
  simp only [numToChars, Int.natAbs_ofNat]
  have h0 : ¬((n : Int) < 0) := by omega
  have hmax : max (natDigits n).length (e + 1) = (natDigits n).length := by omega
  have he0 : e ≠ 0 := by omega
  simp only [h0, if_false, hmax, he0]
  simp

theorem numToChars_neg (m : Int) (e : Nat) (hm : m < 0) :
    numToChars m e = '-' :: numToChars (m.natAbs : Int) e := by
  simp only [numToChars, Int.natAbs_ofNat]
  have h1 : ¬((m.natAbs : Int) < 0) := by omega
  simp only [hm, if_true, h1, if_false]
  rfl

theorem numBoundary_head (c : Char) (r : List Char) (h : numBoundary (c :: r) = true) :
    c.isDigit = false ∧ c ≠ '.' ∧ c ≠ 'e' ∧ c ≠ 'E' := by
  refine ⟨?_, ?_, ?_, ?_⟩
  · cases hcd : c.isDigit
    · rfl
    · simp [numBoundary, hcd] at h
  · rintro rfl
    simp [numBoundary] at h
  · rintro rfl
    simp [numBoundary] at h
  · rintro rfl
    simp [numBoundary] at h

theorem takeWhile_digits (ds : List Char) (hds : ∀ c ∈ ds, c.isDigit = true)
    (rest : List Char) (hr : ∀ c r, rest = c :: r → c.isDigit = false) :
    (ds ++ rest).takeWhile Char.isDigit = ds ∧
      (ds ++ rest).dropWhile Char.isDigit = rest := by
  induction ds with
  | nil =>
    match rest with
    | [] => simp
    | c :: r =>
      have hc := hr c r rfl
      simp [List.takeWhile_cons, List.dropWhile_cons, hc]
  | cons d t ih =>
    have hd := hds d (List.mem_cons_self d t)
    obtain ⟨h1, h2⟩ := ih (fun c hc => hds c (List.mem_cons_of_mem d hc))
    simp [List.takeWhile_cons, List.dropWhile_cons, hd, h1, h2]

theorem numAfterInt_int (neg : Bool) (iv : Nat) (rest : List Char)
    (hb : numBoundary rest = true) :
    numAfterInt neg iv rest =
      some (.num (if neg then -(iv : Int) else (iv : Int)) 0, rest) := by
  match rest with
  | [] =>
    show numAfterFrac neg iv [] [] = _
    simp [numAfterFrac, digitsVal]
  | c :: r =>
    obtain ⟨h1, h2, h3, h4⟩ := numBoundary_head c r hb
    show (if c = '.' then _ else numAfterFrac neg iv [] (c :: r)) = _
    rw [if_neg h2]
    simp only [numAfterFrac, digitsVal, List.length_nil]
    have he : ¬(c = 'e' ∨ c = 'E') := by tauto
    simp only [List.foldl_nil, pow_zero, Nat.mul_one, Nat.add_zero]
    simp [h3, h4]

theorem numAfterFrac_frac (neg : Bool) (iv : Nat) (fds : List Char) (rest : List Char)
    (hb : numBoundary rest = true) :
    numAfterFrac neg iv fds rest =
      some (.num (if neg then -((iv * 10 ^ fds.length + digitsVal fds : Nat) : Int)
          else ((iv * 10 ^ fds.length + digitsVal fds : Nat) : Int)) fds.length, rest) := by
  match rest with
  | [] => simp [numAfterFrac]
  | c :: r =>
    obtain ⟨h1, h2, h3, h4⟩ := numBoundary_head c r hb
    simp only [numAfterFrac]
    simp [h3, h4]

theorem digitsVal_cons (c : Char) (t : List Char) :
    digitsVal (c :: t) = digVal c * 10 ^ t.length + digitsVal t := by
  show (c :: t).foldl (fun a c => a * 10 + digVal c) 0 = _
  rw [List.foldl_cons, digitsVal_foldl t (0 * 10 + digVal c)]
  ring

theorem digitsVal_replicate_zero (k : Nat) : digitsVal (List.replicate k '0') = 0 := by
  induction k with
  | zero => rfl
  | succ k ih =>
    rw [List.replicate_succ, digitsVal_cons, ih]
    simp [show digVal '0' = 0 from rfl]

theorem pnBody_zero_nil (neg : Bool) : pnBody neg ['0'] = numAfterInt neg 0 [] := rfl

theorem pnBody_zero_cons (neg : Bool) (c : Char) (r : List Char) (hc : c.isDigit = false) :
    pnBody neg ('0' :: c :: r) = numAfterInt neg 0 (c :: r) := by
  show (if c.isDigit = true then none else numAfterInt neg 0 (c :: r)) = _
  simp [hc]

theorem pnBody_digit (neg : Bool) (d : Nat) (hd : d < 10) (h0 : d ≠ 0) (X : List Char) :
    pnBody neg (digitChar d :: X) =
      numAfterInt neg (digitsVal ((digitChar d :: X).takeWhile Char.isDigit))
        ((digitChar d :: X).dropWhile Char.isDigit) := by
  simp only [pnBody]
  rw [if_neg (digitChar_ne_zero d hd h0)]
  rw [if_pos (digitChar_isDigit d hd)]

theorem numAfterInt_dot (neg : Bool) (iv : Nat) (Y : List Char) :
    numAfterInt neg iv ('.' :: Y) =
      (if (Y.takeWhile Char.isDigit).isEmpty = true then none
       else numAfterFrac neg iv (Y.takeWhile Char.isDigit) (Y.dropWhile Char.isDigit)) := rfl

theorem rest_head_not_digit (rest : List Char) (hb : numBoundary rest = true) :
    ∀ c r, rest = c :: r → c.isDigit = false := by
  rintro c r rfl
  exact (numBoundary_head c r hb).1

theorem pnBody_unsigned (neg : Bool) (n e : Nat) (rest : List Char)
    (hb : numBoundary rest = true) :
    pnBody neg (numToChars (n : Int) e ++ rest) =
      some (.num (if neg then -(n : Int) else (n : Int)) e, rest) := by
  obtain ⟨d, t, hds, hd10, hzero, hpos⟩ := natDigits_cons n
  rcases Nat.eq_zero_or_pos e with rfl | he
  · -- integer output: digits only
    rw [numToChars_e0]
    by_cases hn : n = 0
    · subst hn
      have h0 : natDigits 0 = ['0'] := by decide
      rw [h0]
      match rest, hb with
      | [], _ =>
        rw [List.append_nil, pnBody_zero_nil, numAfterInt_int neg 0 [] rfl]
      | c :: r, hb =>
        rw [List.cons_append, List.nil_append, pnBody_zero_cons neg c r
          (rest_head_not_digit _ hb c r rfl), numAfterInt_int neg 0 (c :: r) hb]
    · have hd0 : d ≠ 0 := hpos (by omega)
      rw [hds, List.cons_append, pnBody_digit neg d hd10 hd0]
      rw [show digitChar d :: (t ++ rest) = (digitChar d :: t) ++ rest from rfl, ← hds]
      obtain ⟨htw, hdw⟩ := takeWhile_digits (natDigits n) (natDigits_all_digits n) rest
        (rest_head_not_digit rest hb)
      rw [htw, hdw, digitsVal_natDigits, numAfterInt_int neg n rest hb]
  · -- fractional output
    by_cases hlen : (natDigits n).length ≤ e
    · rw [numToChars_small n e he hlen]
      set F := List.replicate (e - (natDigits n).length) '0' ++ natDigits n with hF
      have hFdig : ∀ c ∈ F, c.isDigit = true := by
        intro c hc
        rcases List.mem_append.mp hc with h | h
        · rw [List.eq_of_mem_replicate h]
          decide
        · exact natDigits_all_digits n c h
      have hFlen : F.length = e := by
        rw [hF, List.length_append, List.length_replicate]
        have := natDigits_length_pos n
        omega
      rw [List.cons_append, List.cons_append, pnBody_zero_cons neg '.' (F ++ rest) (by decide)]
      rw [numAfterInt_dot]
      obtain ⟨htw, hdw⟩ := takeWhile_digits F hFdig rest (rest_head_not_digit rest hb)
      rw [htw, hdw]
      have hFne : F.isEmpty = false := by
        have : F ≠ [] := by
          intro hnil
          rw [hnil] at hFlen
          simp at hFlen
          omega
        simp [List.isEmpty_iff, this]
      rw [hFne]
      simp only [Bool.false_eq_true, if_false]
      rw [numAfterFrac_frac neg 0 F rest hb]
      have hFval : digitsVal F = n := by
        rw [hF, digitsVal_append, digitsVal_replicate_zero, digitsVal_natDigits]
        ring
      rw [hFval, hFlen]
      simp
    · push_neg at hlen
      have hn : n ≠ 0 := by
        intro hn0
        subst hn0
        have h0 : natDigits 0 = ['0'] := by decide
        rw [h0] at hlen
        simp at hlen
        omega
      have hd0 : d ≠ 0 := hpos (by omega)
      rw [numToChars_big n e he hlen]
      set ds := natDigits n with hdsdef
      set k := ds.length - e with hk
      obtain ⟨k1, hk1⟩ : ∃ k1, k = k1 + 1 := ⟨k - 1, by omega⟩
      have htake_head : ds.take k = digitChar d :: t.take k1 := by
        rw [hds, hk1, List.take_succ_cons]
      have hexpand : ds.take k ++ '.' :: (ds.drop k ++ rest)
          = digitChar d :: (t.take k1 ++ '.' :: (ds.drop k ++ rest)) := by
        rw [htake_head, List.cons_append]
      have hassoc : (ds.take k ++ '.' :: ds.drop k) ++ rest
          = ds.take k ++ '.' :: (ds.drop k ++ rest) := by
        simp [List.append_assoc]
      rw [hassoc, hexpand, pnBody_digit neg d hd10 hd0, ← hexpand]
      have htkdig : ∀ c ∈ ds.take k, c.isDigit = true := by
        intro c hc
        exact natDigits_all_digits n c (List.mem_of_mem_take hc)
      obtain ⟨htw, hdw⟩ := takeWhile_digits (ds.take k) htkdig ('.' :: (ds.drop k ++ rest))
        (by rintro c r hcr; injection hcr with h1 _; rw [← h1]; decide)
      rw [htw, hdw, numAfterInt_dot]
      have hdrdig : ∀ c ∈ ds.drop k, c.isDigit = true := by
        intro c hc
        exact natDigits_all_digits n c (List.mem_of_mem_drop hc)
      obtain ⟨htw2, hdw2⟩ := takeWhile_digits (ds.drop k) hdrdig rest
        (rest_head_not_digit rest hb)
      rw [htw2, hdw2]
      have hdlen : (ds.drop k).length = e := by
        rw [List.length_drop]
        omega
      have hdne : (ds.drop k).isEmpty = false := by
        have : ds.drop k ≠ [] := by
          intro hnil
          rw [hnil] at hdlen
          simp at hdlen
          omega
        simp [List.isEmpty_iff, this]
      rw [hdne]
      simp only [Bool.false_eq_true, if_false]
      rw [numAfterFrac_frac neg _ _ rest hb]
      have hval : digitsVal (ds.take k) * 10 ^ (ds.drop k).length + digitsVal (ds.drop k) = n := by
        rw [← digitsVal_append, List.take_append_drop, hdsdef, digitsVal_natDigits]
      rw [hdlen] at hval ⊢
      rw [hval]

theorem numToChars_head (n e : Nat) : ∃ d t2, d < 10 ∧
    numToChars (n : Int) e = digitChar d :: t2 := by
  obtain ⟨d, t, hds, hd10, -, -⟩ := natDigits_cons n
  rcases Nat.eq_zero_or_pos e with rfl | he
  · rw [numToChars_e0, hds]
    exact ⟨d, t, hd10, rfl⟩
  · by_cases hlen : (natDigits n).length ≤ e
    · rw [numToChars_small n e he hlen]
      exact ⟨0, _, by omega, by rw [show digitChar 0 = '0' from by decide]⟩
    · push_neg at hlen
      rw [numToChars_big n e he hlen]
      obtain ⟨k1, hk1⟩ : ∃ k1, (natDigits n).length - e = k1 + 1 :=
        ⟨(natDigits n).length - e - 1, by omega⟩
      rw [hk1, hds, List.take_succ_cons, List.cons_append]
      exact ⟨d, _, hd10, rfl⟩

theorem parseNumber_minus (X : List Char) : parseNumber ('-' :: X) = pnBody true X := rfl

theorem parseNumber_cons (c : Char) (r : List Char) (hc : c ≠ '-') :
    parseNumber (c :: r) = pnBody false (c :: r) := by
  simp only [parseNumber]
  rw [if_neg hc]

theorem parseNumber_roundtrip (m : Int) (e : Nat) (rest : List Char)
    (hb : numBoundary rest = true) :
    parseNumber (numToChars m e ++ rest) = some (.num m e, rest) := by
  by_cases hm : m < 0
  · rw [numToChars_neg m e hm, List.cons_append, parseNumber_minus,
      pnBody_unsigned true m.natAbs e rest hb]
    have h3 : |m| = -m := abs_of_neg hm
    simp [h3]
  · push_neg at hm
    have hnn : ((m.natAbs : Int)) = m := by omega
    obtain ⟨d, t2, hd10, hform⟩ := numToChars_head m.natAbs e
    rw [← hnn, hform, List.cons_append,
      parseNumber_cons (digitChar d) _ (digitChar_ne_minus d hd10), ← List.cons_append, ← hform,
      pnBody_unsigned false m.natAbs e rest hb]
    simp

/-! ## String escaping round trip -/

theorem hexDigitChar_isHex (x : Nat) (hx : x < 16) : isHexDig (hexDigitChar x) = true := by
  interval_cases x <;> decide

theorem hexVal_hexDigitChar (x : Nat) (hx : x < 16) : hexVal (hexDigitChar x) = x := by
  interval_cases x <;> decide

theorem parseStringBody_u00 (hi lo : Nat) (hhi : hi < 16) (hlo : lo < 16) (Y : List Char) :
    parseStringBody ('\\' :: 'u' :: '0' :: '0' :: hexDigitChar hi :: hexDigitChar lo :: Y) =
      (parseStringBody Y).map (fun p => (Char.ofNat (hi * 16 + lo) :: p.1, p.2)) := by
  rw [parseStringBody.eq_def]
  have e1 : isHexDig '0' = true := by decide
  have e2 : hexVal '0' = 0 := by decide
  have e3 : ((0 * 16 + 0) * 16 + hi) * 16 + lo = hi * 16 + lo := by ring
  have e4 : hi * 16 + lo < 55296 := by omega
  simp [e1, e2, e3, e4, hexDigitChar_isHex hi hhi, hexDigitChar_isHex lo hlo,
    hexVal_hexDigitChar hi hhi, hexVal_hexDigitChar lo hlo]

theorem parseStringBody_escape (s : List Char) : ∀ rest : List Char,
    parseStringBody (escapeStr s ++ '"' :: rest) = some (s, rest) := by
  induction s with
  | nil =>
    intro rest
    show parseStringBody ('"' :: rest) = some ([], rest)
    rw [parseStringBody.eq_def]
    simp
  | cons c t ih =>
    intro rest
    show parseStringBody ((escapeChar c ++ escapeStr t) ++ '"' :: rest) = _
    rw [List.append_assoc]
    by_cases h1 : c = '"'
    · subst h1
      rw [show escapeChar '"' = ['\\', '"'] from rfl, List.cons_append, List.cons_append,
        List.nil_append, parseStringBody.eq_def]
      simp [ih rest]
    · by_cases h2 : c = '\\'
      · subst h2
        rw [show escapeChar '\\' = ['\\', '\\'] from rfl, List.cons_append, List.cons_append,
          List.nil_append, parseStringBody.eq_def]
        simp [ih rest]
      · by_cases h3 : c = '\x08'
        · subst h3
          rw [show escapeChar '\x08' = ['\\', 'b'] from rfl, List.cons_append, List.cons_append,
            List.nil_append, parseStringBody.eq_def]
          simp [ih rest]
        · by_cases h4 : c = '\x0c'
          · subst h4
            rw [show escapeChar '\x0c' = ['\\', 'f'] from rfl, List.cons_append, List.cons_append,
              List.nil_append, parseStringBody.eq_def]
            simp [ih rest]
          · by_cases h5 : c = '\n'
            · subst h5
              rw [show escapeChar '\n' = ['\\', 'n'] from rfl, List.cons_append, List.cons_append,
                List.nil_append, parseStringBody.eq_def]
              simp [ih rest]
            · by_cases h6 : c = '\r'
              · subst h6
                rw [show escapeChar '\r' = ['\\', 'r'] from rfl, List.cons_append, List.cons_append,
                  List.nil_append, parseStringBody.eq_def]
                simp [ih rest]
              · by_cases h7 : c = '\t'
                · subst h7
                  rw [show escapeChar '\t' = ['\\', 't'] from rfl, List.cons_append, List.cons_append,
                    List.nil_append, parseStringBody.eq_def]
                  simp [ih rest]
                · by_cases h8 : c.toNat < 32
                  · have hesc : escapeChar c =
                        ['\\', 'u', '0', '0', hexDigitChar (c.toNat / 16), hexDigitChar (c.toNat % 16)] := by
                      simp only [escapeChar, h1, h2, h3, h4, h5, h6, h7, if_false, h8, if_true]
                    rw [hesc, List.cons_append, List.cons_append, List.cons_append, List.cons_append,
                      List.cons_append, List.cons_append, List.nil_append]
                    rw [parseStringBody_u00 (c.toNat / 16) (c.toNat % 16) (by omega) (by omega)]
                    rw [ih rest]
                    have hc : Char.ofNat (c.toNat / 16 * 16 + c.toNat % 16) = c := by
                      rw [show c.toNat / 16 * 16 + c.toNat % 16 = c.toNat from by omega, Char.ofNat_toNat]
                    simp [hc]
                  · have hesc : escapeChar c = [c] := by
                      simp only [escapeChar, h1, h2, h3, h4, h5, h6, h7, if_false, h8]
                    rw [hesc, List.cons_append, List.nil_append, parseStringBody.eq_def]
                    simp only [h1, h2, h8, if_false]
                    rw [ih rest]
                    rfl

/-! ## Parser entry and step lemmas for the round trip -/

theorem pv_null (f : Nat) (rest : List Char) :
    parseValueF (f + 1) ('n' :: 'u' :: 'l' :: 'l' :: rest) = some (.null, rest) := by
  simp [parseValueF, skipWs, jsonWs, startsWithL]

theorem pv_true (f : Nat) (rest : List Char) :
    parseValueF (f + 1) ('t' :: 'r' :: 'u' :: 'e' :: rest) = some (.bool true, rest) := by
  simp [parseValueF, skipWs, jsonWs, startsWithL]

theorem pv_false (f : Nat) (rest : List Char) :
    parseValueF (f + 1) ('f' :: 'a' :: 'l' :: 's' :: 'e' :: rest) = some (.bool false, rest) := by
  simp [parseValueF, skipWs, jsonWs, startsWithL]

theorem pv_quote (f : Nat) (X : List Char) :
    parseValueF (f + 1) ('"' :: X) =
      (parseStringBody X).map (fun p => (Json.str p.1, p.2)) := rfl

theorem pv_obrace_quote (f : Nat) (X : List Char) :
    parseValueF (f + 1) ('\x7b' :: '"' :: X) = parseMembers f [] ('"' :: X) := rfl

theorem pv_obj_empty (f : Nat) (rest : List Char) :
    parseValueF (f + 1) ('\x7b' :: '\x7d' :: rest) = some (.obj [], rest) := rfl

theorem pv_arr_empty (f : Nat) (rest : List Char) :
    parseValueF (f + 1) ('[' :: ']' :: rest) = some (.arr [], rest) := rfl

theorem pv_minus (f : Nat) (X : List Char) :
    parseValueF (f + 1) ('-' :: X) = parseNumber ('-' :: X) := rfl

theorem pv_digit (f : Nat) (d : Nat) (hd : d < 10) (X : List Char) :
    parseValueF (f + 1) (digitChar d :: X) = parseNumber (digitChar d :: X) := by
  interval_cases d <;> rfl

theorem pv_obrack (f : Nat) (c : Char) (X : List Char)
    (hc : c = 'n' ∨ c = 't' ∨ c = 'f' ∨ c = '"' ∨ c = '[' ∨ c = '\x7b' ∨ c = '-' ∨
      c.isDigit = true) :
    parseValueF (f + 1) ('[' :: c :: X) = parseElems f [] (c :: X) := by
  rcases hc with rfl | rfl | rfl | rfl | rfl | rfl | rfl | hd
  · rfl
  · rfl
  · rfl
  · rfl
  · rfl
  · rfl
  · rfl
  · obtain ⟨d, hd10, rfl⟩ := isDigit_exists_digitChar c hd
    interval_cases d <;> rfl

theorem pe_comma (f : Nat) (acc : List Json) (Y : List Char) (v : Json) (r2 : List Char)
    (h : parseValueF f Y = some (v, ',' :: r2)) :
    parseElems (f + 1) acc Y = parseElems f (acc ++ [v]) r2 := by
  simp only [parseElems, h]
  rw [show skipWs (',' :: r2) = ',' :: r2 from rfl]
  rfl

theorem pe_close (f : Nat) (acc : List Json) (Y : List Char) (v : Json) (r2 : List Char)
    (h : parseValueF f Y = some (v, ']' :: r2)) :
    parseElems (f + 1) acc Y = some (.arr (acc ++ [v]), r2) := by
  simp only [parseElems, h]
  rw [show skipWs (']' :: r2) = ']' :: r2 from rfl]
  rfl

theorem pm_comma (f : Nat) (acc : List (List Char × Json)) (X Y : List Char) (key : List Char)
    (v : Json) (r4 : List Char)
    (h1 : parseStringBody X = some (key, ':' :: Y))
    (h2 : parseValueF f Y = some (v, ',' :: r4)) :
    parseMembers (f + 1) acc ('"' :: X) = parseMembers f (insertMember acc key v) r4 := by
  simp only [parseMembers]
  rw [show skipWs ('"' :: X) = '"' :: X from rfl]
  simp only [h1]
  rw [show skipWs (':' :: Y) = ':' :: Y from rfl]
  simp only [h2]
  rw [show skipWs (',' :: r4) = ',' :: r4 from rfl]
  rfl

theorem pm_close (f : Nat) (acc : List (List Char × Json)) (X Y : List Char) (key : List Char)
    (v : Json) (r4 : List Char)
    (h1 : parseStringBody X = some (key, ':' :: Y))
    (h2 : parseValueF f Y = some (v, '\x7d' :: r4)) :
    parseMembers (f + 1) acc ('"' :: X) = some (.obj (insertMember acc key v), r4) := by
  simp only [parseMembers]
  rw [show skipWs ('"' :: X) = '"' :: X from rfl]
  simp only [h1]
  rw [show skipWs (':' :: Y) = ':' :: Y from rfl]
  simp only [h2]
  rw [show skipWs ('\x7d' :: r4) = '\x7d' :: r4 from rfl]
  rfl

theorem pv_num (f : Nat) (m : Int) (e : Nat) (rest : List Char) (hb : numBoundary rest = true) :
    parseValueF (f + 1) (numToChars m e ++ rest) = some (.num m e, rest) := by
  by_cases hm : m < 0
  · rw [numToChars_neg m e hm, List.cons_append, pv_minus, ← List.cons_append,
      ← numToChars_neg m e hm, parseNumber_roundtrip m e rest hb]
  · push_neg at hm
    have hnn : ((m.natAbs : Int)) = m := by omega
    obtain ⟨d, t2, hd10, hform⟩ := numToChars_head m.natAbs e
    rw [← hnn, hform, List.cons_append, pv_digit f d hd10, ← List.cons_append, ← hform,
      hnn, parseNumber_roundtrip m e rest hb]

/-! ## Printer equations and shape facts -/

theorem st_null : stringifyJson .null = ['n', 'u', 'l', 'l'] := by decide

theorem st_true : stringifyJson (.bool true) = ['t', 'r', 'u', 'e'] := by decide

theorem st_false : stringifyJson (.bool false) = ['f', 'a', 'l', 's', 'e'] := by decide

theorem st_num (m : Int) (e : Nat) : stringifyJson (.num m e) = numToChars m e := by
  simp [stringifyJson]

theorem st_str (s : List Char) : stringifyJson (.str s) = '"' :: escapeStr s ++ ['"'] := by
  simp [stringifyJson]

theorem st_arr (l : List Json) : stringifyJson (.arr l) = '[' :: stringifyElems l ++ [']'] := by
  simp [stringifyJson]

theorem st_obj (l : List (List Char × Json)) :
    stringifyJson (.obj l) = '\x7b' :: stringifyMembers l ++ ['\x7d'] := by
  simp [stringifyJson]

theorem se_one (j : Json) : stringifyElems [j] = stringifyJson j := by
  simp [stringifyElems]

theorem se_cons (j j2 : Json) (js : List Json) :
    stringifyElems (j :: j2 :: js) = stringifyJson j ++ ',' :: stringifyElems (j2 :: js) := by
  simp [stringifyElems]

theorem sm_one (k : List Char) (v : Json) :
    stringifyMembers [(k, v)] = '"' :: escapeStr k ++ '"' :: ':' :: stringifyJson v := by
  simp [stringifyMembers]

theorem sm_cons (k : List Char) (v : Json) (m2 : List Char × Json)
    (ms : List (List Char × Json)) :
    stringifyMembers ((k, v) :: m2 :: ms) =
      ('"' :: escapeStr k ++ '"' :: ':' :: stringifyJson v) ++ ',' :: stringifyMembers (m2 :: ms) := by
  simp [stringifyMembers]

theorem ndk_arr (l : List Json) : noDupKeysJ (.arr l) = noDupKeysA l := by
  simp [noDupKeysJ]

theorem ndk_obj (l : List (List Char × Json)) : noDupKeysJ (.obj l) = noDupKeysM l := by
  simp [noDupKeysJ]

theorem ndk_acons (j : Json) (js : List Json) :
    noDupKeysA (j :: js) = (noDupKeysJ j && noDupKeysA js) := by
  simp [noDupKeysA]

theorem ndk_mcons (k : List Char) (v : Json) (t : List (List Char × Json)) :
    noDupKeysM ((k, v) :: t) = (keyFree k t && noDupKeysJ v && noDupKeysM t) := by
  simp [noDupKeysM]

theorem stringifyJson_head (j : Json) : ∃ c t, stringifyJson j = c :: t ∧
    (c = 'n' ∨ c = 't' ∨ c = 'f' ∨ c = '"' ∨ c = '[' ∨ c = '\x7b' ∨ c = '-' ∨
      c.isDigit = true) := by
  cases j with
  | null => exact ⟨'n', _, st_null, by tauto⟩
  | bool b =>
    cases b
    · exact ⟨'f', _, st_false, by tauto⟩
    · exact ⟨'t', _, st_true, by tauto⟩
  | num m e =>
    by_cases hm : m < 0
    · refine ⟨'-', numToChars (m.natAbs : Int) e, ?_, by tauto⟩
      rw [st_num, numToChars_neg m e hm]
    · obtain ⟨d, t2, hd10, hform⟩ := numToChars_head m.natAbs e
      have hnn : ((m.natAbs : Int)) = m := by omega
      refine ⟨digitChar d, t2, ?_, Or.inr (Or.inr (Or.inr (Or.inr (Or.inr (Or.inr
        (Or.inr (digitChar_isDigit d hd10)))))))⟩
      rw [st_num, ← hnn, hform]
  | str s => exact ⟨'"', _, st_str s, by tauto⟩
  | arr l => exact ⟨'[', _, st_arr l, by tauto⟩
  | obj l => exact ⟨'\x7b', _, st_obj l, by tauto⟩

theorem stringifyElems_head (j : Json) (js : List Json) : ∃ c t,
    stringifyElems (j :: js) = c :: t ∧
    (c = 'n' ∨ c = 't' ∨ c = 'f' ∨ c = '"' ∨ c = '[' ∨ c = '\x7b' ∨ c = '-' ∨
      c.isDigit = true) := by
  obtain ⟨c, t, hct, hc⟩ := stringifyJson_head j
  match js with
  | [] => exact ⟨c, t, by rw [se_one, hct], hc⟩
  | j2 :: js2 =>
    refine ⟨c, t ++ ',' :: stringifyElems (j2 :: js2), ?_, hc⟩
    rw [se_cons, hct, List.cons_append]

/-! ## Object member bookkeeping -/

theorem insertMember_fresh (acc : List (List Char × Json)) (k : List Char) (v : Json)
    (h : keyFree k acc = true) : insertMember acc k v = acc ++ [(k, v)] := by
  induction acc with
  | nil => rfl
  | cons kv t ih =>
    obtain ⟨k2, v2⟩ := kv
    simp only [keyFree] at h
    by_cases hk : k2 = k
    · simp [hk] at h
    · simp only [insertMember, hk, if_false]
      rw [ih (by simpa [hk] using h)]
      simp

theorem keyFree_ne (k : List Char) (l : List (List Char × Json)) (h : keyFree k l = true) :
    ∀ k2 v, (k2, v) ∈ l → k2 ≠ k := by
  induction l with
  | nil => intro k2 v hm; simp at hm
  | cons kv t ih =>
    obtain ⟨k3, v3⟩ := kv
    simp only [keyFree] at h
    by_cases hk : k3 = k
    · simp [hk] at h
    · intro k2 v hm
      rcases List.mem_cons.mp hm with heq | hmem
      · injection heq with h1 _
        rw [h1]
        exact hk
      · exact ih (by simpa [hk] using h) k2 v hmem

theorem keyFree_append_single (k : List Char) (acc : List (List Char × Json))
    (k1 : List Char) (v1 : Json) (h1 : keyFree k acc = true) (h2 : k1 ≠ k) :
    keyFree k (acc ++ [(k1, v1)]) = true := by
  induction acc with
  | nil => simp [keyFree, h2]
  | cons kv t ih =>
    obtain ⟨k3, v3⟩ := kv
    simp only [keyFree] at h1 ⊢
    by_cases hk : k3 = k
    · simp [hk] at h1
    · simp only [hk, if_false] at h1 ⊢
      exact ih h1

theorem sm_head (k : List Char) (v : Json) (ms : List (List Char × Json)) :
    ∃ Z, stringifyMembers ((k, v) :: ms) = '"' :: Z := by
  match ms with
  | [] => exact ⟨escapeStr k ++ '"' :: ':' :: stringifyJson v, by rw [sm_one, List.cons_append]⟩
  | m2 :: ms2 =>
    refine ⟨(escapeStr k ++ '"' :: ':' :: stringifyJson v) ++ ',' :: stringifyMembers (m2 :: ms2), ?_⟩
    rw [sm_cons, List.cons_append, List.cons_append]

theorem sizeJ_pos (j : Json) : 1 ≤ sizeJ j := by
  cases j <;> simp [sizeJ]

theorem sizeJ_arr (l : List Json) : sizeJ (.arr l) = sizeA l + 1 := by simp [sizeJ]

theorem sizeJ_obj (l : List (List Char × Json)) : sizeJ (.obj l) = sizeM l + 1 := by
  simp [sizeJ]

theorem sizeA_cons (j : Json) (js : List Json) : sizeA (j :: js) = sizeJ j + sizeA js + 1 := by
  simp [sizeA]

theorem sizeM_cons (k : List Char) (v : Json) (t : List (List Char × Json)) :
    sizeM ((k, v) :: t) = sizeJ v + sizeM t + 1 := by
  simp [sizeM]

theorem numBoundary_comma (X : List Char) : numBoundary (',' :: X) = true := rfl

theorem numBoundary_rbrack (X : List Char) : numBoundary (']' :: X) = true := rfl

theorem numBoundary_rbrace (X : List Char) : numBoundary ('\x7d' :: X) = true := rfl

theorem parse_print (f : Nat) :
    (∀ (j : Json) (rest : List Char), sizeJ j ≤ f → noDupKeysJ j = true →
        numBoundary rest = true →
        parseValueF f (stringifyJson j ++ rest) = some (j, rest)) ∧
    (∀ (j : Json) (js : List Json) (acc : List Json) (rest : List Char),
        sizeA (j :: js) ≤ f → noDupKeysA (j :: js) = true → numBoundary rest = true →
        parseElems f acc (stringifyElems (j :: js) ++ ']' :: rest)
          = some (.arr (acc ++ j :: js), rest)) ∧
    (∀ (k : List Char) (v : Json) (ms : List (List Char × Json))
        (acc : List (List Char × Json)) (rest : List Char),
        sizeM ((k, v) :: ms) ≤ f → noDupKeysM ((k, v) :: ms) = true →
        (∀ k2 v2, (k2, v2) ∈ (k, v) :: ms → keyFree k2 acc = true) →
        numBoundary rest = true →
        parseMembers f acc (stringifyMembers ((k, v) :: ms) ++ '\x7d' :: rest)
          = some (.obj (acc ++ (k, v) :: ms), rest)) := by
  induction f with
  | zero =>
    refine ⟨?_, ?_, ?_⟩
    · intro j rest hsz _ _
      have := sizeJ_pos j
      omega
    · intro j js acc rest hsz _ _
      rw [sizeA_cons] at hsz
      omega
    · intro k v ms acc rest hsz _ _ _
      rw [sizeM_cons] at hsz
      omega
  | succ f ih =>
    obtain ⟨ihv, ihe, ihm⟩ := ih
    refine ⟨?_, ?_, ?_⟩
    · intro j rest hsz hnd hb
      cases j with
      | null =>
        rw [st_null]
        exact pv_null f rest
      | bool b =>
        cases b
        · rw [st_false]
          exact pv_false f rest
        · rw [st_true]
          exact pv_true f rest
      | num m e =>
        rw [st_num]
        exact pv_num f m e rest hb
      | str s2 =>
        rw [st_str]
        simp only [List.cons_append, List.append_assoc, List.singleton_append, List.nil_append]
        rw [pv_quote, parseStringBody_escape s2 rest]
        rfl
      | arr l =>
        cases l with
        | nil =>
          rw [show stringifyJson (.arr []) = ['[', ']'] from by decide]
          exact pv_arr_empty f rest
        | cons j js =>
          rw [st_arr]
          simp only [List.cons_append, List.append_assoc, List.singleton_append, List.nil_append]
          obtain ⟨c, t, hct, hc⟩ := stringifyElems_head j js
          rw [hct, List.cons_append, pv_obrack f c _ hc, ← List.cons_append, ← hct]
          rw [sizeJ_arr] at hsz
          rw [ndk_arr] at hnd
          rw [ihe j js [] rest (by omega) hnd hb]
          simp
      | obj l =>
        cases l with
        | nil =>
          rw [show stringifyJson (.obj []) = ['\x7b', '\x7d'] from by decide]
          exact pv_obj_empty f rest
        | cons kv ms =>
          obtain ⟨k, v⟩ := kv
          rw [st_obj]
          simp only [List.cons_append, List.append_assoc, List.singleton_append, List.nil_append]
          obtain ⟨Z, hZ⟩ := sm_head k v ms
          rw [hZ, List.cons_append, pv_obrace_quote, ← List.cons_append, ← hZ]
          rw [sizeJ_obj] at hsz
          rw [ndk_obj] at hnd
          rw [ihm k v ms [] rest (by omega) hnd (fun k2 v2 _ => rfl) hb]
          simp
    · intro j js acc rest hsz hnd hb
      rw [sizeA_cons] at hsz
      have hszj : sizeJ j ≤ f := by omega
      rw [ndk_acons, Bool.and_eq_true] at hnd
      cases js with
      | nil =>
        rw [se_one]
        exact pe_close f acc _ j rest (ihv j (']' :: rest) hszj hnd.1 (numBoundary_rbrack rest))
      | cons j2 js2 =>
        rw [se_cons]
        simp only [List.cons_append, List.append_assoc]
        rw [pe_comma f acc _ j _
          (ihv j (',' :: (stringifyElems (j2 :: js2) ++ ']' :: rest)) hszj hnd.1
            (numBoundary_comma _))]
        have hsz2 : sizeA (j2 :: js2) ≤ f := by
          have := sizeJ_pos j
          omega
        rw [ihe j2 js2 (acc ++ [j]) rest hsz2 hnd.2 hb]
        simp
    · intro k v ms acc rest hsz hnd hfresh hb
      rw [sizeM_cons] at hsz
      have hszv : sizeJ v ≤ f := by omega
      simp only [ndk_mcons, Bool.and_eq_true] at hnd
      obtain ⟨⟨hkf, hndv⟩, hndm⟩ := hnd
      have hins : insertMember acc k v = acc ++ [(k, v)] :=
        insertMember_fresh acc k v (hfresh k v (List.mem_cons_self _ _))
      cases ms with
      | nil =>
        rw [sm_one]
        simp only [List.cons_append, List.append_assoc]
        have hstep := pm_close f acc
          (escapeStr k ++ '"' :: ':' :: (stringifyJson v ++ '\x7d' :: rest))
          (stringifyJson v ++ '\x7d' :: rest) k v rest
          (parseStringBody_escape k (':' :: (stringifyJson v ++ '\x7d' :: rest)))
          (ihv v ('\x7d' :: rest) hszv hndv (numBoundary_rbrace rest))
        rw [hstep, hins]
      | cons m2 ms2 =>
        obtain ⟨k2, v2⟩ := m2
        rw [sm_cons]
        simp only [List.cons_append, List.append_assoc]
        have hstep := pm_comma f acc
          (escapeStr k ++ '"' :: ':' ::
            (stringifyJson v ++ ',' :: (stringifyMembers ((k2, v2) :: ms2) ++ '\x7d' :: rest)))
          (stringifyJson v ++ ',' :: (stringifyMembers ((k2, v2) :: ms2) ++ '\x7d' :: rest))
          k v (stringifyMembers ((k2, v2) :: ms2) ++ '\x7d' :: rest)
          (parseStringBody_escape k _)
          (ihv v (',' :: (stringifyMembers ((k2, v2) :: ms2) ++ '\x7d' :: rest)) hszv hndv
            (numBoundary_comma _))
        rw [hstep, hins]
        have hsz2 : sizeM ((k2, v2) :: ms2) ≤ f := by
          have := sizeJ_pos v
          omega
        have hfresh2 : ∀ k3 v3, (k3, v3) ∈ (k2, v2) :: ms2 →
            keyFree k3 (acc ++ [(k, v)]) = true := by
          intro k3 v3 hm
          exact keyFree_append_single k3 acc k v
            (hfresh k3 v3 (List.mem_cons_of_mem _ hm))
            (Ne.symm (keyFree_ne k ((k2, v2) :: ms2) hkf k3 v3 hm))
        rw [ihm k2 v2 ms2 (acc ++ [(k, v)]) rest hsz2 hndm hfresh2 hb]
        simp

theorem numToChars_len (m : Int) (e : Nat) : 1 ≤ (numToChars m e).length := by
  by_cases hm : m < 0
  · rw [numToChars_neg m e hm]
    simp
  · push_neg at hm
    have hnn : ((m.natAbs : Int)) = m := by omega
    obtain ⟨d, t2, hd10, hform⟩ := numToChars_head m.natAbs e
    rw [← hnn, hform]
    simp

theorem size_le_len_aux (n : Nat) :
    (∀ j : Json, sizeJ j ≤ n → sizeJ j ≤ 2 * (stringifyJson j).length) ∧
    (∀ l : List Json, sizeA l ≤ n → sizeA l ≤ 2 * (stringifyElems l).length + 1) ∧
    (∀ ms : List (List Char × Json), sizeM ms ≤ n →
      sizeM ms ≤ 2 * (stringifyMembers ms).length + 1) := by
  induction n with
  | zero =>
    refine ⟨?_, ?_, ?_⟩
    · intro j hsz
      have := sizeJ_pos j
      omega
    · intro l hsz
      cases l with
      | nil => simp [sizeA]
      | cons j js =>
        rw [sizeA_cons] at hsz
        have := sizeJ_pos j
        omega
    · intro ms hsz
      cases ms with
      | nil => simp [sizeM]
      | cons kv t =>
        obtain ⟨k, v⟩ := kv
        rw [sizeM_cons] at hsz
        have := sizeJ_pos v
        omega
  | succ n ih =>
    obtain ⟨ihv, ihe, ihm⟩ := ih
    refine ⟨?_, ?_, ?_⟩
    · intro j hsz
      cases j with
      | null => rw [st_null]; simp [sizeJ]
      | bool b => cases b
                  · rw [st_false]; simp [sizeJ]
                  · rw [st_true]; simp [sizeJ]
      | num m e =>
        rw [st_num]
        have h1 := numToChars_len m e
        simp [sizeJ]
        omega
      | str s2 =>
        rw [st_str]
        simp [sizeJ]
        omega
      | arr l =>
        rw [st_arr, sizeJ_arr]
        rw [sizeJ_arr] at hsz
        have h1 := ihe l (by omega)
        simp only [List.length_cons, List.length_append, List.length_singleton]
        omega
      | obj l =>
        rw [st_obj, sizeJ_obj]
        rw [sizeJ_obj] at hsz
        have h1 := ihm l (by omega)
        simp only [List.length_cons, List.length_append, List.length_singleton]
        omega
    · intro l hsz
      cases l with
      | nil => simp [sizeA]
      | cons j js =>
        rw [sizeA_cons] at hsz ⊢
        cases js with
        | nil =>
          rw [se_one]
          have h1 := ihv j (by have := sizeJ_pos j; omega)
          simp [sizeA]
          omega
        | cons j2 js2 =>
          rw [se_cons]
          have h1 := ihv j (by have := sizeJ_pos j; omega)
          have h2 := ihe (j2 :: js2) (by have := sizeJ_pos j; omega)
          simp only [List.length_append, List.length_cons]
          omega
    · intro ms hsz
      cases ms with
      | nil => simp [sizeM]
      | cons kv t =>
        obtain ⟨k, v⟩ := kv
        rw [sizeM_cons] at hsz ⊢
        cases t with
        | nil =>
          rw [sm_one]
          have h1 := ihv v (by have := sizeJ_pos v; omega)
          simp only [List.length_cons, List.length_append, sizeM]
          simp [sizeM]
          omega
        | cons m2 t2 =>
          rw [sm_cons]
          have h1 := ihv v (by have := sizeJ_pos v; omega)
          have h2 := ihm (m2 :: t2) (by have := sizeJ_pos v; omega)
          simp only [List.length_append, List.length_cons]
          omega

theorem size_le_len (j : Json) : sizeJ j ≤ 2 * (stringifyJson j).length :=
  (size_le_len_aux (sizeJ j)).1 j (le_refl _)

theorem jsonParse_stringify (j : Json) (hnd : noDupKeysJ j = true) :
    jsonParse (stringifyJson j) = some j := by
  have h := (parse_print (2 * (stringifyJson j).length + 2)).1 j []
    (by have := size_le_len j; omega) hnd rfl
  rw [List.append_nil] at h
  simp [jsonParse, h]
  rfl

/-! ## A valid EvaluationResult has duplicate-free keys -/

theorem ndk_null : noDupKeysJ .null = true := by simp [noDupKeysJ]

theorem ndk_bool (b : Bool) : noDupKeysJ (.bool b) = true := by simp [noDupKeysJ]

theorem ndk_num (m : Int) (e : Nat) : noDupKeysJ (.num m e) = true := by simp [noDupKeysJ]

theorem ndk_str (s : List Char) : noDupKeysJ (.str s) = true := by simp [noDupKeysJ]

theorem ndk_anil : noDupKeysA [] = true := by simp [noDupKeysA]

theorem ndk_mnil : noDupKeysM [] = true := by simp [noDupKeysM]

theorem keyFree_by_keys (k : List Char) (l : List (List Char × Json))
    (h : (l.map Prod.fst).all (fun k2 => !(k2 == k)) = true) : keyFree k l = true := by
  induction l with
  | nil => rfl
  | cons p t ih =>
    obtain ⟨k2, v2⟩ := p
    simp only [List.map_cons, List.all_cons, Bool.and_eq_true] at h
    have hne : k2 ≠ k := by
      intro he
      subst he
      have h1 := h.1
      rw [beq_self_eq_true] at h1
      exact absurd h1 (by decide)
    simp [keyFree, hne, ih h.2]

theorem noDup_of_isStrJ (v : Json) (h : isStrJ v = true) : noDupKeysJ v = true := by
  cases v with
  | str s => exact ndk_str s
  | null => simp [isStrJ] at h
  | bool b => simp [isStrJ] at h
  | num m e => simp [isStrJ] at h
  | arr l => simp [isStrJ] at h
  | obj l => simp [isStrJ] at h

theorem noDup_of_isNumJ (v : Json) (h : isNumJ v = true) : noDupKeysJ v = true := by
  cases v with
  | num m e => exact ndk_num m e
  | null => simp [isNumJ] at h
  | bool b => simp [isNumJ] at h
  | str s => simp [isNumJ] at h
  | arr l => simp [isNumJ] at h
  | obj l => simp [isNumJ] at h

theorem noDup_of_isScore (v : Json) (h : isScore v = true) : noDupKeysJ v = true := by
  cases v with
  | num m e => exact ndk_num m e
  | null => simp [isScore] at h
  | bool b => simp [isScore] at h
  | str s => simp [isScore] at h
  | arr l => simp [isScore] at h
  | obj l => simp [isScore] at h

theorem noDup_of_isRecommendation (v : Json) (h : isRecommendation v = true) :
    noDupKeysJ v = true := by
  cases v with
  | str s => exact ndk_str s
  | null => simp [isRecommendation] at h
  | bool b => simp [isRecommendation] at h
  | num m e => simp [isRecommendation] at h
  | arr l => simp [isRecommendation] at h
  | obj l => simp [isRecommendation] at h

theorem noDup_of_isStrArr (v : Json) (h : isStrArr v = true) : noDupKeysJ v = true := by
  cases v with
  | arr l =>
    rw [ndk_arr]
    simp only [isStrArr] at h
    induction l with
    | nil => exact ndk_anil
    | cons j js ih =>
      simp only [List.all_cons, Bool.and_eq_true] at h
      rw [ndk_acons, noDup_of_isStrJ j h.1, ih h.2]
      rfl
  | null => simp [isStrArr] at h
  | bool b => simp [isStrArr] at h
  | num m e => simp [isStrArr] at h
  | str s => simp [isStrArr] at h
  | obj l => simp [isStrArr] at h


/-! ## Shape of a valid EvaluationResult implies duplicate-free keys -/

theorem noDup_of_isCompetitors (v : Json) (h : isCompetitors v = true) :
    noDupKeysJ v = true := by
  match v, h with
  | .obj [(k1, v1), (k2, v2)], h =>
    simp only [isCompetitors, Bool.and_eq_true, beq_iff_eq] at h
    obtain ⟨⟨⟨hk1, hv1⟩, hk2⟩, hv2⟩ := h
    subst hk1
    subst hk2
    have hkf1 : keyFree ("existingSolutions".toList) [("differentiation".toList, v2)] = true :=
      keyFree_by_keys _ _ (by simp only [List.map_cons, List.map_nil]; decide)
    simp [ndk_obj, ndk_mcons, ndk_mnil, keyFree, hkf1, noDup_of_isStrJ v1 hv1, noDup_of_isStrJ v2 hv2]
  | .null, h => nomatch h
  | .bool b, h => nomatch h
  | .num m e, h => nomatch h
  | .str s, h => nomatch h
  | .arr l, h => nomatch h
  | .obj [], h => nomatch h
  | .obj [(a1, b1)], h => nomatch h
  | .obj ((a1, b1) :: (a2, b2) :: (a3, b3) :: t), h => nomatch h

theorem noDup_of_isBmwAlignment (v : Json) (h : isBmwAlignment v = true) :
    noDupKeysJ v = true := by
  match v, h with
  | .obj [(k1, v1), (k2, v2), (k3, v3)], h =>
    simp only [isBmwAlignment, Bool.and_eq_true, beq_iff_eq] at h
    obtain ⟨⟨⟨⟨⟨hk1, hv1⟩, hk2⟩, hv2⟩, hk3⟩, hv3⟩ := h
    subst hk1
    subst hk2
    subst hk3
    have hkf1 : keyFree ("strategyFit".toList) [("brandFit".toList, v2), ("corporateValues".toList, v3)] = true :=
      keyFree_by_keys _ _ (by simp only [List.map_cons, List.map_nil]; decide)
    have hkf2 : keyFree ("brandFit".toList) [("corporateValues".toList, v3)] = true :=
      keyFree_by_keys _ _ (by simp only [List.map_cons, List.map_nil]; decide)
    simp [ndk_obj, ndk_mcons, ndk_mnil, keyFree, hkf1, hkf2, noDup_of_isStrJ v1 hv1, noDup_of_isStrJ v2 hv2, noDup_of_isStrJ v3 hv3]
  | .null, h => nomatch h
  | .bool b, h => nomatch h
  | .num m e, h => nomatch h
  | .str s, h => nomatch h
  | .arr l, h => nomatch h
  | .obj [], h => nomatch h
  | .obj [(a1, b1)], h => nomatch h
  | .obj [(a1, b1), (a2, b2)], h => nomatch h
  | .obj ((a1, b1) :: (a2, b2) :: (a3, b3) :: (a4, b4) :: t), h => nomatch h

theorem noDup_of_isDesirability (v : Json) (h : isDesirability v = true) :
    noDupKeysJ v = true := by
  match v, h with
  | .obj [(k1, v1), (k2, v2), (k3, v3), (k4, v4)], h =>
    simp only [isDesirability, Bool.and_eq_true, beq_iff_eq] at h
    obtain ⟨⟨⟨⟨⟨⟨⟨hk1, hv1⟩, hk2⟩, hv2⟩, hk3⟩, hv3⟩, hk4⟩, hv4⟩ := h
    subst hk1
    subst hk2
    subst hk3
    subst hk4
    have hkf1 : keyFree ("score".toList) [("justification".toList, v2), ("marketNeed".toList, v3), ("customerAppeal".toList, v4)] = true :=
      keyFree_by_keys _ _ (by simp only [List.map_cons, List.map_nil]; decide)
    have hkf2 : keyFree ("justification".toList) [("marketNeed".toList, v3), ("customerAppeal".toList, v4)] = true :=
      keyFree_by_keys _ _ (by simp only [List.map_cons, List.map_nil]; decide)
    have hkf3 : keyFree ("marketNeed".toList) [("customerAppeal".toList, v4)] = true :=
      keyFree_by_keys _ _ (by simp only [List.map_cons, List.map_nil]; decide)
    simp [ndk_obj, ndk_mcons, ndk_mnil, keyFree, hkf1, hkf2, hkf3, noDup_of_isScore v1 hv1, noDup_of_isStrJ v2 hv2, noDup_of_isStrJ v3 hv3, noDup_of_isStrJ v4 hv4]
  | .null, h => nomatch h
  | .bool b, h => nomatch h
  | .num m e, h => nomatch h
  | .str s, h => nomatch h
  | .arr l, h => nomatch h
  | .obj [], h => nomatch h
  | .obj [(a1, b1)], h => nomatch h
  | .obj [(a1, b1), (a2, b2)], h => nomatch h
  | .obj [(a1, b1), (a2, b2), (a3, b3)], h => nomatch h
  | .obj ((a1, b1) :: (a2, b2) :: (a3, b3) :: (a4, b4) :: (a5, b5) :: t), h => nomatch h

theorem noDup_of_isFeasibility (v : Json) (h : isFeasibility v = true) :
    noDupKeysJ v = true := by
  match v, h with
  | .obj [(k1, v1), (k2, v2), (k3, v3), (k4, v4), (k5, v5)], h =>
    simp only [isFeasibility, Bool.and_eq_true, beq_iff_eq] at h
    obtain ⟨⟨⟨⟨⟨⟨⟨⟨⟨hk1, hv1⟩, hk2⟩, hv2⟩, hk3⟩, hv3⟩, hk4⟩, hv4⟩, hk5⟩, hv5⟩ := h
    subst hk1
    subst hk2
    subst hk3
    subst hk4
    subst hk5
    have hkf1 : keyFree ("score".toList) [("justification".toList, v2), ("technicalComplexity".toList, v3), ("resourceRequirements".toList, v4), ("regulatoryChallenges".toList, v5)] = true :=
      keyFree_by_keys _ _ (by simp only [List.map_cons, List.map_nil]; decide)
    have hkf2 : keyFree ("justification".toList) [("technicalComplexity".toList, v3), ("resourceRequirements".toList, v4), ("regulatoryChallenges".toList, v5)] = true :=
      keyFree_by_keys _ _ (by simp only [List.map_cons, List.map_nil]; decide)
    have hkf3 : keyFree ("technicalComplexity".toList) [("resourceRequirements".toList, v4), ("regulatoryChallenges".toList, v5)] = true :=
      keyFree_by_keys _ _ (by simp only [List.map_cons, List.map_nil]; decide)
    have hkf4 : keyFree ("resourceRequirements".toList) [("regulatoryChallenges".toList, v5)] = true :=
      keyFree_by_keys _ _ (by simp only [List.map_cons, List.map_nil]; decide)
    simp [ndk_obj, ndk_mcons, ndk_mnil, keyFree, hkf1, hkf2, hkf3, hkf4, noDup_of_isScore v1 hv1, noDup_of_isStrJ v2 hv2, noDup_of_isStrJ v3 hv3, noDup_of_isStrJ v4 hv4, noDup_of_isStrJ v5 hv5]
  | .null, h => nomatch h
  | .bool b, h => nomatch h
  | .num m e, h => nomatch h
  | .str s, h => nomatch h
  | .arr l, h => nomatch h
  | .obj [], h => nomatch h
  | .obj [(a1, b1)], h => nomatch h
  | .obj [(a1, b1), (a2, b2)], h => nomatch h
  | .obj [(a1, b1), (a2, b2), (a3, b3)], h => nomatch h
  | .obj [(a1, b1), (a2, b2), (a3, b3), (a4, b4)], h => nomatch h
  | .obj ((a1, b1) :: (a2, b2) :: (a3, b3) :: (a4, b4) :: (a5, b5) :: (a6, b6) :: t), h => nomatch h

theorem noDup_of_isViability (v : Json) (h : isViability v = true) :
    noDupKeysJ v = true := by
  match v, h with
  | .obj [(k1, v1), (k2, v2), (k3, v3), (k4, v4), (k5, v5)], h =>
    simp only [isViability, Bool.and_eq_true, beq_iff_eq] at h
    obtain ⟨⟨⟨⟨⟨⟨⟨⟨⟨hk1, hv1⟩, hk2⟩, hv2⟩, hk3⟩, hv3⟩, hk4⟩, hv4⟩, hk5⟩, hv5⟩ := h
    subst hk1
    subst hk2
    subst hk3
    subst hk4
    subst hk5
    have hkf1 : keyFree ("score".toList) [("justification".toList, v2), ("marketPotential".toList, v3), ("costStructure".toList, v4), ("competitivePositioning".toList, v5)] = true :=
      keyFree_by_keys _ _ (by simp only [List.map_cons, List.map_nil]; decide)
    have hkf2 : keyFree ("justification".toList) [("marketPotential".toList, v3), ("costStructure".toList, v4), ("competitivePositioning".toList, v5)] = true :=
      keyFree_by_keys _ _ (by simp only [List.map_cons, List.map_nil]; decide)
    have hkf3 : keyFree ("marketPotential".toList) [("costStructure".toList, v4), ("competitivePositioning".toList, v5)] = true :=
      keyFree_by_keys _ _ (by simp only [List.map_cons, List.map_nil]; decide)
    have hkf4 : keyFree ("costStructure".toList) [("competitivePositioning".toList, v5)] = true :=
      keyFree_by_keys _ _ (by simp only [List.map_cons, List.map_nil]; decide)
    simp [ndk_obj, ndk_mcons, ndk_mnil, keyFree, hkf1, hkf2, hkf3, hkf4, noDup_of_isScore v1 hv1, noDup_of_isStrJ v2 hv2, noDup_of_isStrJ v3 hv3, noDup_of_isStrJ v4 hv4, noDup_of_isStrJ v5 hv5]
  | .null, h => nomatch h
  | .bool b, h => nomatch h
  | .num m e, h => nomatch h
  | .str s, h => nomatch h
  | .arr l, h => nomatch h
  | .obj [], h => nomatch h
  | .obj [(a1, b1)], h => nomatch h
  | .obj [(a1, b1), (a2, b2)], h => nomatch h
  | .obj [(a1, b1), (a2, b2), (a3, b3)], h => nomatch h
  | .obj [(a1, b1), (a2, b2), (a3, b3), (a4, b4)], h => nomatch h
  | .obj ((a1, b1) :: (a2, b2) :: (a3, b3) :: (a4, b4) :: (a5, b5) :: (a6, b6) :: t), h => nomatch h

theorem noDup_of_isOverall (v : Json) (h : isOverall v = true) :
    noDupKeysJ v = true := by
  match v, h with
  | .obj [(k1, v1), (k2, v2), (k3, v3), (k4, v4), (k5, v5)], h =>
    simp only [isOverall, Bool.and_eq_true, beq_iff_eq] at h
    obtain ⟨⟨⟨⟨⟨⟨⟨⟨⟨hk1, hv1⟩, hk2⟩, hv2⟩, hk3⟩, hv3⟩, hk4⟩, hv4⟩, hk5⟩, hv5⟩ := h
    subst hk1
    subst hk2
    subst hk3
    subst hk4
    subst hk5
    have hkf1 : keyFree ("overallScore".toList) [("strengths".toList, v2), ("weaknesses".toList, v3), ("risks".toList, v4), ("recommendation".toList, v5)] = true :=
      keyFree_by_keys _ _ (by simp only [List.map_cons, List.map_nil]; decide)
    have hkf2 : keyFree ("strengths".toList) [("weaknesses".toList, v3), ("risks".toList, v4), ("recommendation".toList, v5)] = true :=
      keyFree_by_keys _ _ (by simp only [List.map_cons, List.map_nil]; decide)
    have hkf3 : keyFree ("weaknesses".toList) [("risks".toList, v4), ("recommendation".toList, v5)] = true :=
      keyFree_by_keys _ _ (by simp only [List.map_cons, List.map_nil]; decide)
    have hkf4 : keyFree ("risks".toList) [("recommendation".toList, v5)] = true :=
      keyFree_by_keys _ _ (by simp only [List.map_cons, List.map_nil]; decide)
    simp [ndk_obj, ndk_mcons, ndk_mnil, keyFree, hkf1, hkf2, hkf3, hkf4, noDup_of_isNumJ v1 hv1, noDup_of_isStrArr v2 hv2, noDup_of_isStrArr v3 hv3, noDup_of_isStrArr v4 hv4, noDup_of_isRecommendation v5 hv5]
  | .null, h => nomatch h
  | .bool b, h => nomatch h
  | .num m e, h => nomatch h
  | .str s, h => nomatch h
  | .arr l, h => nomatch h
  | .obj [], h => nomatch h
  | .obj [(a1, b1)], h => nomatch h
  | .obj [(a1, b1), (a2, b2)], h => nomatch h
  | .obj [(a1, b1), (a2, b2), (a3, b3)], h => nomatch h
  | .obj [(a1, b1), (a2, b2), (a3, b3), (a4, b4)], h => nomatch h
  | .obj ((a1, b1) :: (a2, b2) :: (a3, b3) :: (a4, b4) :: (a5, b5) :: (a6, b6) :: t), h => nomatch h

theorem isEvalResult_noDup (v : Json) (h : isEvalResult v = true) :
    noDupKeysJ v = true := by
  match v, h with
  | .obj [(k1, v1), (k2, v2), (k3, v3), (k4, v4), (k5, v5), (k6, v6), (k7, v7)], h =>
    simp only [isEvalResult, Bool.and_eq_true, beq_iff_eq] at h
    obtain ⟨⟨⟨⟨⟨⟨⟨⟨⟨⟨⟨⟨⟨hk1, hv1⟩, hk2⟩, hv2⟩, hk3⟩, hv3⟩, hk4⟩, hv4⟩, hk5⟩, hv5⟩, hk6⟩, hv6⟩, hk7⟩, hv7⟩ := h
    subst hk1
    subst hk2
    subst hk3
    subst hk4
    subst hk5
    subst hk6
    subst hk7
    have hkf1 : keyFree ("competitors".toList) [("bmwAlignment".toList, v2), ("desirability".toList, v3), ("feasibility".toList, v4), ("viability".toList, v5), ("overallEvaluation".toList, v6), ("improvements".toList, v7)] = true :=
      keyFree_by_keys _ _ (by simp only [List.map_cons, List.map_nil]; decide)
    have hkf2 : keyFree ("bmwAlignment".toList) [("desirability".toList, v3), ("feasibility".toList, v4), ("viability".toList, v5), ("overallEvaluation".toList, v6), ("improvements".toList, v7)] = true :=
      keyFree_by_keys _ _ (by simp only [List.map_cons, List.map_nil]; decide)
    have hkf3 : keyFree ("desirability".toList) [("feasibility".toList, v4), ("viability".toList, v5), ("overallEvaluation".toList, v6), ("improvements".toList, v7)] = true :=
      keyFree_by_keys _ _ (by simp only [List.map_cons, List.map_nil]; decide)
    have hkf4 : keyFree ("feasibility".toList) [("viability".toList, v5), ("overallEvaluation".toList, v6), ("improvements".toList, v7)] = true :=
      keyFree_by_keys _ _ (by simp only [List.map_cons, List.map_nil]; decide)
    have hkf5 : keyFree ("viability".toList) [("overallEvaluation".toList, v6), ("improvements".toList, v7)] = true :=
      keyFree_by_keys _ _ (by simp only [List.map_cons, List.map_nil]; decide)
    have hkf6 : keyFree ("overallEvaluation".toList) [("improvements".toList, v7)] = true :=
      keyFree_by_keys _ _ (by simp only [List.map_cons, List.map_nil]; decide)
    simp [ndk_obj, ndk_mcons, ndk_mnil, keyFree, hkf1, hkf2, hkf3, hkf4, hkf5, hkf6, noDup_of_isCompetitors v1 hv1, noDup_of_isBmwAlignment v2 hv2, noDup_of_isDesirability v3 hv3, noDup_of_isFeasibility v4 hv4, noDup_of_isViability v5 hv5, noDup_of_isOverall v6 hv6, noDup_of_isStrArr v7 hv7]
  | .null, h => nomatch h
  | .bool b, h => nomatch h
  | .num m e, h => nomatch h
  | .str s, h => nomatch h
  | .arr l, h => nomatch h
  | .obj [], h => nomatch h
  | .obj [(a1, b1)], h => nomatch h
  | .obj [(a1, b1), (a2, b2)], h => nomatch h
  | .obj [(a1, b1), (a2, b2), (a3, b3)], h => nomatch h
  | .obj [(a1, b1), (a2, b2), (a3, b3), (a4, b4)], h => nomatch h
  | .obj [(a1, b1), (a2, b2), (a3, b3), (a4, b4), (a5, b5)], h => nomatch h
  | .obj [(a1, b1), (a2, b2), (a3, b3), (a4, b4), (a5, b5), (a6, b6)], h => nomatch h
  | .obj ((a1, b1) :: (a2, b2) :: (a3, b3) :: (a4, b4) :: (a5, b5) :: (a6, b6) :: (a7, b7) :: (a8, b8) :: t), h => nomatch h

theorem isEvalResult_obj (j : Json) (h : isEvalResult j = true) :
    ∃ kv ms, j = .obj (kv :: ms) := by
  match j, h with
  | .obj [(k1, v1), (k2, v2), (k3, v3), (k4, v4), (k5, v5), (k6, v6), (k7, v7)], h => exact ⟨(k1, v1), _, rfl⟩
  | .null, h => nomatch h
  | .bool b, h => nomatch h
  | .num m e, h => nomatch h
  | .str s, h => nomatch h
  | .arr l, h => nomatch h
  | .obj [], h => nomatch h
  | .obj [(a1, b1)], h => nomatch h
  | .obj [(a1, b1), (a2, b2)], h => nomatch h
  | .obj [(a1, b1), (a2, b2), (a3, b3)], h => nomatch h
  | .obj [(a1, b1), (a2, b2), (a3, b3), (a4, b4)], h => nomatch h
  | .obj [(a1, b1), (a2, b2), (a3, b3), (a4, b4), (a5, b5)], h => nomatch h
  | .obj [(a1, b1), (a2, b2), (a3, b3), (a4, b4), (a5, b5), (a6, b6)], h => nomatch h
  | .obj ((a1, b1) :: (a2, b2) :: (a3, b3) :: (a4, b4) :: (a5, b5) :: (a6, b6) :: (a7, b7) :: (a8, b8) :: t), h => nomatch h

/-! ## Claim C5: round trip through fences -/

/-- C5: serializing a valid EvaluationResult with the JSON printer, wrapping
the text in triple-backtick fences, and running the Extractor on the wrapped
text reproduces the original object exactly. -/
theorem C5_theorem : ∀ j : Json, isEvalResult j = true →
    extractEvaluation ('\x60' :: '\x60' :: '\x60' ::
      (stringifyJson j ++ ('\x60' :: '\x60' :: '\x60' :: []))) = .ok j := by
  intro j h
  obtain ⟨⟨k, v⟩, ms, rfl⟩ := isEvalResult_obj j h
  have hnd : noDupKeysJ (Json.obj ((k, v) :: ms)) = true := isEvalResult_noDup _ h
  have hform : stringifyJson (Json.obj ((k, v) :: ms))
      = '\x7b' :: (stringifyMembers ((k, v) :: ms) ++ ['\x7d']) := by
    rw [st_obj, List.cons_append]
  obtain ⟨w, hw⟩ := matchAt_fenced_untagged [] (stringifyMembers ((k, v) :: ms)) [] []
    (by intro c hc; simp at hc) (by intro c hc; simp at hc) (by simp)
  simp only [List.nil_append] at hw
  have hjs : jsMatch fencedRE ('\x60' :: '\x60' :: '\x60' ::
      (stringifyJson (Json.obj ((k, v) :: ms)) ++ ('\x60' :: '\x60' :: '\x60' :: [])))
      = some (w, some ('\x7b' :: (stringifyMembers ((k, v) :: ms) ++ ['\x7d']))) := by
    rw [hform]
    simp only [List.cons_append, List.append_assoc, List.singleton_append, List.nil_append]
    simp [jsMatch, hw]
  have hext : extractJsonContent ('\x60' :: '\x60' :: '\x60' ::
      (stringifyJson (Json.obj ((k, v) :: ms)) ++ ('\x60' :: '\x60' :: '\x60' :: [])))
      = '\x7b' :: (stringifyMembers ((k, v) :: ms) ++ ['\x7d']) := by
    simp [extractJsonContent, hjs]
  have hpj : jsonParse (extractJsonContent ('\x60' :: '\x60' :: '\x60' ::
      (stringifyJson (Json.obj ((k, v) :: ms)) ++ ('\x60' :: '\x60' :: '\x60' :: []))))
      = some (Json.obj ((k, v) :: ms)) := by
    rw [hext, ← hform, jsonParse_stringify _ hnd]
  simp [extractEvaluation, hpj]

/-- C5 witness: a concrete full EvaluationResult round-trips through
serialization, fencing and extraction. -/
theorem C5_witness :
    isEvalResult (Json.obj [
      ("competitors".toList, .obj [
        ("existingSolutions".toList, .str "Urban Arrow".toList),
        ("differentiation".toList, .str "Solar panels".toList)]),
      ("bmwAlignment".toList, .obj [
        ("strategyFit".toList, .str "Good".toList),
        ("brandFit".toList, .str "Premium".toList),
        ("corporateValues".toList, .str "Sustainable".toList)]),
      ("desirability".toList, .obj [
        ("score".toList, .num 7 0),
        ("justification".toList, .str "Clear need".toList),
        ("marketNeed".toList, .str "High".toList),
        ("customerAppeal".toList, .str "Strong".toList)]),
      ("feasibility".toList, .obj [
        ("score".toList, .num 6 0),
        ("justification".toList, .str "Doable".toList),
        ("technicalComplexity".toList, .str "Medium".toList),
        ("resourceRequirements".toList, .str "Moderate".toList),
        ("regulatoryChallenges".toList, .str "Low".toList)]),
      ("viability".toList, .obj [
        ("score".toList, .num 65 1),
        ("justification".toList, .str "Viable".toList),
        ("marketPotential".toList, .str "Growing".toList),
        ("costStructure".toList, .str "Lean".toList),
        ("competitivePositioning".toList, .str "Niche".toList)]),
      ("overallEvaluation".toList, .obj [
        ("overallScore".toList, .num 65 1),
        ("strengths".toList, .arr [.str "Green".toList]),
        ("weaknesses".toList, .arr [.str "Cost".toList]),
        ("risks".toList, .arr [.str "Weather".toList]),
        ("recommendation".toList, .str "Moderate".toList)]),
      ("improvements".toList, .arr [.str "Add battery buffer".toList])]) = true ∧
    extractEvaluation ('\x60' :: '\x60' :: '\x60' ::
      (stringifyJson (Json.obj [
      ("competitors".toList, .obj [
        ("existingSolutions".toList, .str "Urban Arrow".toList),
        ("differentiation".toList, .str "Solar panels".toList)]),
      ("bmwAlignment".toList, .obj [
        ("strategyFit".toList, .str "Good".toList),
        ("brandFit".toList, .str "Premium".toList),
        ("corporateValues".toList, .str "Sustainable".toList)]),
      ("desirability".toList, .obj [
        ("score".toList, .num 7 0),
        ("justification".toList, .str "Clear need".toList),
        ("marketNeed".toList, .str "High".toList),
        ("customerAppeal".toList, .str "Strong".toList)]),
      ("feasibility".toList, .obj [
        ("score".toList, .num 6 0),
        ("justification".toList, .str "Doable".toList),
        ("technicalComplexity".toList, .str "Medium".toList),
        ("resourceRequirements".toList, .str "Moderate".toList),
        ("regulatoryChallenges".toList, .str "Low".toList)]),
      ("viability".toList, .obj [
        ("score".toList, .num 65 1),
        ("justification".toList, .str "Viable".toList),
        ("marketPotential".toList, .str "Growing".toList),
        ("costStructure".toList, .str "Lean".toList),
        ("competitivePositioning".toList, .str "Niche".toList)]),
      ("overallEvaluation".toList, .obj [
        ("overallScore".toList, .num 65 1),
        ("strengths".toList, .arr [.str "Green".toList]),
        ("weaknesses".toList, .arr [.str "Cost".toList]),
        ("risks".toList, .arr [.str "Weather".toList]),
        ("recommendation".toList, .str "Moderate".toList)]),
      ("improvements".toList, .arr [.str "Add battery buffer".toList])]) ++
        ('\x60' :: '\x60' :: '\x60' :: []))) = .ok (Json.obj [
      ("competitors".toList, .obj [
        ("existingSolutions".toList, .str "Urban Arrow".toList),
        ("differentiation".toList, .str "Solar panels".toList)]),
      ("bmwAlignment".toList, .obj [
        ("strategyFit".toList, .str "Good".toList),
        ("brandFit".toList, .str "Premium".toList),
        ("corporateValues".toList, .str "Sustainable".toList)]),
      ("desirability".toList, .obj [
        ("score".toList, .num 7 0),
        ("justification".toList, .str "Clear need".toList),
        ("marketNeed".toList, .str "High".toList),
        ("customerAppeal".toList, .str "Strong".toList)]),
      ("feasibility".toList, .obj [
        ("score".toList, .num 6 0),
        ("justification".toList, .str "Doable".toList),
        ("technicalComplexity".toList, .str "Medium".toList),
        ("resourceRequirements".toList, .str "Moderate".toList),
        ("regulatoryChallenges".toList, .str "Low".toList)]),
      ("viability".toList, .obj [
        ("score".toList, .num 65 1),
        ("justification".toList, .str "Viable".toList),
        ("marketPotential".toList, .str "Growing".toList),
        ("costStructure".toList, .str "Lean".toList),
        ("competitivePositioning".toList, .str "Niche".toList)]),
      ("overallEvaluation".toList, .obj [
        ("overallScore".toList, .num 65 1),
        ("strengths".toList, .arr [.str "Green".toList]),
        ("weaknesses".toList, .arr [.str "Cost".toList]),
        ("risks".toList, .arr [.str "Weather".toList]),
        ("recommendation".toList, .str "Moderate".toList)]),
      ("improvements".toList, .arr [.str "Add battery buffer".toList])]) :=
  ⟨by decide, C5_theorem _ (by decide)⟩
